import Mathlib

/-
Verification of the crowdfund funding ledger (Flask application, `app.py`).

The development embeds the ledger core of `app.py`:
  * `Project.get_total_raised`, `Project.get_progress_percentage`,
    `Project.get_contribution_count` (lines 86-101) — note that these convert
    the stored DECIMAL(10,2) amounts with Python's `float(...)` and then
    compute with IEEE-754 binary64 arithmetic.  Binary64 rounding is embedded
    exactly as the function `fl : ℚ → ℚ` (round to nearest, ties to even, with
    unbounded exponent range — exact for every magnitude this application can
    produce, since neither overflow nor subnormals are reachable from
    DECIMAL(10,2) data).
  * the SQL aggregate used by the read routes
    (`db.session.query(func.sum(Contribution.amount)) ... .scalar() or 0`,
    line 333), which sums the DECIMAL values exactly.
  * the `contribute` route (lines 370-396) with the `ContributionForm`
    validators `DataRequired()` and `NumberRange(min=1, max=10000)`,
  * the comment log: `Project.get_comments_list` / `Project.add_comment`
    (lines 103-123) and the `add_comment` route (lines 398-411) with the
    `CommentForm` validators `DataRequired()` and `Length(min=5, max=500)`.
    The Python `json` module (stdlib, not part of the repository) is modelled
    by an executable serializer `dumpsJson` (separators ", " / ": ", the
    `json.dumps` defaults) and a recursive-descent reader `parseJson`.  The
    model covers the JSON fragment this application can store: null, true,
    false, integer numerals, strings (with the standard escapes and \u00XX
    for control characters), arrays and objects.  Fractional numerals and the
    \uXXXX astral-plane pairing are outside the model; `parseJson` simply
    rejects such texts, so the modelled reader accepts a sublanguage of what
    `json.loads` accepts.
  * the wtforms validator semantics are taken from the wtforms documentation:
    `DataRequired` stops validation when the value is falsy, and a string
    consisting only of whitespace counts as falsy (it is `strip()`ped);
    `Length(min, max)` checks `min <= len(data) <= max`;
    `NumberRange(min, max)` checks `min <= data <= max`.
-/

namespace Crowdfund

/-! ### Binary64 rounding, embedded over ℚ -/

/-- Fuel-driven binary logarithm on ℕ: `natLog2F f n` is `⌊log₂ n⌋` whenever
`n ≤ f` and `1 ≤ n`.  Written with explicit fuel so that it is structurally
recursive and kernel-computable. -/
def natLog2F : ℕ → ℕ → ℕ
  | 0, _ => 0
  | f + 1, n => if n ≤ 1 then 0 else natLog2F f (n / 2) + 1

/-- Binary logarithm on ℕ (`⌊log₂ n⌋` for `n ≥ 1`). -/
def natLog2 (n : ℕ) : ℕ := natLog2F n n

/-- Powers of two in ℚ, by structural recursion. -/
def pow2n : ℕ → ℚ
  | 0 => 1
  | n + 1 => 2 * pow2n n

/-- Integer powers of two in ℚ. -/
def pow2 : ℤ → ℚ
  | Int.ofNat n => pow2n n
  | Int.negSucc n => 1 / pow2n (n + 1)

/-- The binade exponent of a positive rational: the unique `e` with
`2^e ≤ q < 2^(e+1)`. -/
def floorExp (q : ℚ) : ℤ :=
  let d : ℤ := (natLog2 q.num.toNat : ℤ) - (natLog2 q.den : ℤ)
  if pow2 d ≤ q then d else d - 1

/-- Round a rational to an integer, half to even (the IEEE-754 tie rule). -/
def rnd (x : ℚ) : ℤ :=
  if (1 : ℚ) / 2 < x - ⌊x⌋ then ⌊x⌋ + 1
  else if x - ⌊x⌋ < (1 : ℚ) / 2 then ⌊x⌋
  else if ⌊x⌋ % 2 = 0 then ⌊x⌋ else ⌊x⌋ + 1

/-- Round a positive rational to 53 significant bits (round to nearest, ties
to even): scale into `[2^52, 2^53)`, round to an integer, scale back. -/
def rhe (q : ℚ) : ℚ :=
  (rnd (q * pow2 (52 - floorExp q)) : ℚ) / pow2 (52 - floorExp q)

/-- Rounding of a rational to IEEE-754 binary64 (Python `float`), with
unbounded exponent range: round to nearest, ties to even, 53 significant
bits.  This is the exact value semantics of every float produced by the
application (all reachable magnitudes are in the normal range). -/
def fl (q : ℚ) : ℚ := if q < 0 then -(rhe (-q)) else if q = 0 then 0 else rhe q

/-! ### Data model (app.py lines 69-140) -/

/-- One row of the `contributions` table: `amount DECIMAL(10,2)` plus the two
foreign keys.  The DECIMAL value is held exactly as a rational. -/
structure Contribution where
  amount : ℚ
  user_id : ℕ
  project_id : ℕ

/-- One row of the `projects` table: `funding_goal DECIMAL(10,2)`, the
`comments` TEXT column (a JSON blob, default `''`), and the `contributions`
relationship in insertion order. -/
structure Project where
  funding_goal : ℚ
  comments : String
  contributions : List Contribution

/-- Python `sum([float(a) for a in amounts])`: left-to-right binary64
accumulation starting from `0`. -/
def floatSumList (l : List ℚ) : ℚ := l.foldl (fun acc a => fl (acc + fl a)) 0

/-- `Project.get_total_raised` (app.py 86-89):
`sum([float(contrib.amount) for contrib in self.contributions])`. -/
def Project.get_total_raised (p : Project) : ℚ :=
  floatSumList (p.contributions.map (·.amount))

/-- `Project.get_progress_percentage` (app.py 91-97):
`0` if `float(self.funding_goal) <= 0`, otherwise
`min((total_raised / float(self.funding_goal)) * 100, 100)`,
all in binary64 arithmetic. -/
def Project.get_progress_percentage (p : Project) : ℚ :=
  if fl p.funding_goal ≤ 0 then 0
  else min (fl (fl (p.get_total_raised / fl p.funding_goal) * 100)) 100

/-- `Project.get_contribution_count` (app.py 99-101): `len(self.contributions)`. -/
def Project.get_contribution_count (p : Project) : ℕ := p.contributions.length

/-- SQL `SUM(amount)` over a bag of DECIMAL values: exact, `NULL` on the
empty bag. -/
def sqlSum (l : List ℚ) : Option ℚ :=
  match l with
  | [] => none
  | _ => some l.sum

/-- The aggregate used by the read routes (app.py 333, 421, 442):
`db.session.query(func.sum(Contribution.amount)).filter_by(project_id=id).scalar() or 0`. -/
def sqlTotalRaised (dbc : List Contribution) (pid : ℕ) : ℚ :=
  ((sqlSum ((dbc.filter (fun c => c.project_id == pid)).map (·.amount))).getD 0)

/-- `ContributionForm` (app.py 201-206): `DataRequired()` (falsy data stops
validation; for a number, `0` is falsy) and
`NumberRange(min=1, max=10000)`. -/
def contributionFormOk (a : ℚ) : Bool :=
  (!(a == 0)) && decide (1 ≤ a) && decide (a ≤ 10000)

/-- The `contribute` route (app.py 370-396) against an existing project:
validate the form; on success insert exactly one new contribution row and
commit.  `commitOk` models the fate of `db.session.commit()`: on a database
error the route runs `db.session.rollback()`, leaving the project unchanged.
Returns the new state and whether a contribution was recorded. -/
def contribute (p : Project) (uid pid : ℕ) (amount : ℚ) (commitOk : Bool) :
    Project × Bool :=
  if contributionFormOk amount then
    if commitOk then
      ({ p with contributions := p.contributions ++ [⟨amount, uid, pid⟩] }, true)
    else (p, false)
  else (p, false)

/-! ### JSON values (model of the Python `json` stdlib module) -/

mutual

/-- JSON values, with integer numerals (the fragment the application stores). -/
inductive Json where
  | null : Json
  | boolean : Bool → Json
  | num : ℤ → Json
  | str : String → Json
  | arr : JArr → Json
  | obj : JObj → Json

/-- A JSON array, as its own inductive so that mutual structural recursion
and induction stay simple. -/
inductive JArr where
  | nil : JArr
  | cons : Json → JArr → JArr

/-- A JSON object: an insertion-ordered key/value sequence (Python dicts
preserve insertion order, which `json.dumps` serializes). -/
inductive JObj where
  | nil : JObj
  | cons : String → Json → JObj → JObj

end

/-- Length of a modelled JSON array. -/
def JArr.length : JArr → ℕ
  | .nil => 0
  | .cons _ tl => tl.length + 1

/-- Build a modelled JSON array from a list. -/
def JArr.ofList : List Json → JArr
  | [] => .nil
  | j :: l => .cons j (JArr.ofList l)

/-- Append an element at the end of a modelled JSON array
(Python `list.append`). -/
def JArr.push : JArr → Json → JArr
  | .nil, j => .cons j .nil
  | .cons hd tl, j => .cons hd (tl.push j)

/-! ### Serializer (`json.dumps` with its default separators) -/

/-- Hex digit characters `0`-`9`, `a`-`f` (what Python's `\u00XX` escapes
use). -/
def hexChar (n : ℕ) : Char := Nat.digitChar n

/-- Escaping of one character inside a JSON string literal, following
`json.dumps`: `"` and `\` get a backslash, the named control characters get
their short escapes, remaining control characters become `\u00XX`. -/
def escapeChar (c : Char) : List Char :=
  if c = '\"' then ['\\', '\"']
  else if c = '\\' then ['\\', '\\']
  else if c = '\n' then ['\\', 'n']
  else if c = '\t' then ['\\', 't']
  else if c = '\r' then ['\\', 'r']
  else if c = Char.ofNat 8 then ['\\', 'b']
  else if c = Char.ofNat 12 then ['\\', 'f']
  else if c.toNat < 32 then
    ['\\', 'u', '0', '0', hexChar (c.toNat / 16), hexChar (c.toNat % 16)]
  else [c]

/-- Escape a whole string body. -/
def escapeStr : List Char → List Char
  | [] => []
  | c :: cs => escapeChar c ++ escapeStr cs

/-- Fuel-driven decimal printing of a natural number (big-endian digits). -/
def natCharsF : ℕ → ℕ → List Char
  | 0, _ => []
  | f + 1, n => if n < 10 then [Nat.digitChar n] else natCharsF f (n / 10) ++ [Nat.digitChar (n % 10)]

/-- Decimal printing of a natural number. -/
def natChars (n : ℕ) : List Char := natCharsF (n + 1) n

/-- Decimal printing of an integer. -/
def intChars (n : ℤ) : List Char :=
  if n < 0 then '-' :: natChars n.natAbs else natChars n.toNat

mutual

/-- `json.dumps` of a value, with the default separators `", "` and `": "`. -/
def dumpsJson : Json → List Char
  | .null => ['n', 'u', 'l', 'l']
  | .boolean true => ['t', 'r', 'u', 'e']
  | .boolean false => ['f', 'a', 'l', 's', 'e']
  | .num n => intChars n
  | .str s => '\"' :: (escapeStr s.data ++ ['\"'])
  | .arr a => '[' :: (dumpsArr a ++ [']'])
  | .obj o => '{' :: (dumpsObj o ++ ['}'])

/-- Serialize the elements of an array, separated by `", "`. -/
def dumpsArr : JArr → List Char
  | .nil => []
  | .cons j tl => dumpsJson j ++ dumpsArrTail tl

/-- Serialize the `", "`-prefixed elements after the first one. -/
def dumpsArrTail : JArr → List Char
  | .nil => []
  | .cons j tl => ',' :: ' ' :: (dumpsJson j ++ dumpsArrTail tl)

/-- Serialize the members of an object, separated by `", "`, each as
`"key": value`. -/
def dumpsObj : JObj → List Char
  | .nil => []
  | .cons k v tl =>
    '\"' :: (escapeStr k.data ++ ('\"' :: ':' :: ' ' :: (dumpsJson v ++ dumpsObjTail tl)))

/-- Serialize the `", "`-prefixed members after the first one. -/
def dumpsObjTail : JObj → List Char
  | .nil => []
  | .cons k v tl =>
    ',' :: ' ' :: ('\"' :: (escapeStr k.data ++ ('\"' :: ':' :: ' ' :: (dumpsJson v ++ dumpsObjTail tl))))

end

/-- The blob a serialized value is stored as. -/
def dumpsStr (j : Json) : String := String.mk (dumpsJson j)

/-! ### Reader (`json.loads`, on the modelled fragment) -/

/-- The JSON whitespace characters (RFC 8259, what `json.loads` skips). -/
def isJsonWs (c : Char) : Bool := c = ' ' || c = '\t' || c = '\n' || c = '\r'

/-- Skip leading JSON whitespace. -/
def skipWs : List Char → List Char
  | [] => []
  | c :: cs => if isJsonWs c then skipWs cs else c :: cs

/-- Hexadecimal value of a character, if any. -/
def hexVal (c : Char) : Option ℕ :=
  if '0' ≤ c ∧ c ≤ '9' then some (c.toNat - 48)
  else if 'a' ≤ c ∧ c ≤ 'f' then some (c.toNat - 87)
  else if 'A' ≤ c ∧ c ≤ 'F' then some (c.toNat - 55)
  else none

/-- Resolution of a short escape `\c`. -/
def unescChar (c : Char) : Option Char :=
  if c = '\"' then some '\"'
  else if c = '\\' then some '\\'
  else if c = '/' then some '/'
  else if c = 'b' then some (Char.ofNat 8)
  else if c = 'f' then some (Char.ofNat 12)
  else if c = 'n' then some '\n'
  else if c = 'r' then some '\r'
  else if c = 't' then some '\t'
  else none

/-- Read a string body up to the closing quote, resolving escapes; fails on a
bare control character (as `json.loads` does in strict mode). -/
def parseStrAux : List Char → Option (List Char × List Char)
  | [] => none
  | c :: cs =>
    if c = '\"' then some ([], cs)
    else if c = '\\' then
      match cs with
      | [] => none
      | e :: cs2 =>
        if e = 'u' then
          match cs2 with
          | a :: b :: c3 :: d :: cs3 =>
            match hexVal a, hexVal b, hexVal c3, hexVal d with
            | some x, some y, some z, some w =>
              match parseStrAux cs3 with
              | some (s, r) => some (Char.ofNat (4096 * x + 256 * y + 16 * z + w) :: s, r)
              | none => none
            | _, _, _, _ => none
          | _ => none
        else
          match unescChar e with
          | some c2 =>
            match parseStrAux cs2 with
            | some (s, r) => some (c2 :: s, r)
            | none => none
          | none => none
    else if c.toNat < 32 then none
    else
      match parseStrAux cs with
      | some (s, r) => some (c :: s, r)
      | none => none

/-- Decimal digit test. -/
def isDigit (c : Char) : Bool := decide ('0' ≤ c) && decide (c ≤ '9')

/-- Accumulate a run of decimal digits. -/
def parseNatAux (acc : ℕ) : List Char → ℕ × List Char
  | [] => (acc, [])
  | c :: cs => if isDigit c then parseNatAux (acc * 10 + (c.toNat - 48)) cs else (acc, c :: cs)

/-- Read an integer numeral (the numeric fragment the model covers). -/
def parseNum : List Char → Option (Json × List Char)
  | [] => none
  | c :: cs =>
    if c = '-' then
      match cs with
      | [] => none
      | d :: cs2 =>
        if isDigit d then
          match parseNatAux 0 (d :: cs2) with
          | (n, rest) => some (.num (-(n : ℤ)), rest)
        else none
    else if isDigit c then
      match parseNatAux 0 (c :: cs) with
      | (n, rest) => some (.num (n : ℤ), rest)
    else none

/-- Drop an expected literal prefix. -/
def dropLit : List Char → List Char → Option (List Char)
  | [], cs => some cs
  | _, [] => none
  | l :: ls, c :: cs => if c = l then dropLit ls cs else none

mutual

/-- Read one JSON value.  The fuel argument only bounds the nesting depth;
`input length + 1` is always sufficient. -/
def parseVal : ℕ → List Char → Option (Json × List Char)
  | 0, _ => none
  | f + 1, cs =>
    match skipWs cs with
    | [] => none
    | c :: rest =>
      if c = 'n' then
        match dropLit ['u', 'l', 'l'] rest with
        | some r => some (.null, r)
        | none => none
      else if c = 't' then
        match dropLit ['r', 'u', 'e'] rest with
        | some r => some (.boolean true, r)
        | none => none
      else if c = 'f' then
        match dropLit ['a', 'l', 's', 'e'] rest with
        | some r => some (.boolean false, r)
        | none => none
      else if c = '\"' then
        match parseStrAux rest with
        | some (s, r) => some (.str (String.mk s), r)
        | none => none
      else if c = '[' then
        match skipWs rest with
        | [] => none
        | c2 :: rest2 =>
          if c2 = ']' then some (.arr .nil, rest2)
          else
            match parseVal f (c2 :: rest2) with
            | some (j, r) =>
              match parseArrTail f r with
              | some (a, r2) => some (.arr (.cons j a), r2)
              | none => none
            | none => none
      else if c = '{' then
        match skipWs rest with
        | [] => none
        | c2 :: rest2 =>
          if c2 = '}' then some (.obj .nil, rest2)
          else
            match parseKV f (c2 :: rest2) with
            | some (k, v, r) =>
              match parseObjTail f r with
              | some (o, r2) => some (.obj (.cons k v o), r2)
              | none => none
            | none => none
      else parseNum (c :: rest)

/-- After an array element: `, element ...` or `]`. -/
def parseArrTail : ℕ → List Char → Option (JArr × List Char)
  | 0, _ => none
  | f + 1, cs =>
    match skipWs cs with
    | [] => none
    | c :: rest =>
      if c = ']' then some (.nil, rest)
      else if c = ',' then
        match parseVal f rest with
        | some (j, r) =>
          match parseArrTail f r with
          | some (a, r2) => some (.cons j a, r2)
          | none => none
        | none => none
      else none

/-- After an object member: `, "key": value ...` or `}`. -/
def parseObjTail : ℕ → List Char → Option (JObj × List Char)
  | 0, _ => none
  | f + 1, cs =>
    match skipWs cs with
    | [] => none
    | c :: rest =>
      if c = '}' then some (.nil, rest)
      else if c = ',' then
        match parseKV f rest with
        | some (k, v, r) =>
          match parseObjTail f r with
          | some (o, r2) => some (.cons k v o, r2)
          | none => none
        | none => none
      else none

/-- One object member `"key": value`. -/
def parseKV : ℕ → List Char → Option (String × Json × List Char)
  | 0, _ => none
  | f + 1, cs =>
    match skipWs cs with
    | [] => none
    | c :: rest =>
      if c = '\"' then
        match parseStrAux rest with
        | some (k, r) =>
          match skipWs r with
          | [] => none
          | c2 :: r2 =>
            if c2 = ':' then
              match parseVal f r2 with
              | some (v, r3) => some (String.mk k, v, r3)
              | none => none
            else none
        | none => none
      else none

end

/-- `json.loads`: read one value and insist nothing but whitespace follows. -/
def parseJson (s : String) : Option Json :=
  match parseVal (s.data.length + 1) s.data with
  | some (j, rest) => if skipWs rest = [] then some j else none
  | none => none

/-! ### The comment log (app.py 103-123, 208-213, 398-411) -/

/-- `Project.get_comments_list` (app.py 103-111): an empty (or NULL) blob
reads as `[]`; otherwise `json.loads`, with any parse failure swallowed into
`[]`. -/
def get_comments_list (blob : String) : Json :=
  if blob = "" then .arr .nil
  else
    match parseJson blob with
    | some j => j
    | none => .arr .nil

/-- The comment dictionary built by `Project.add_comment` (app.py 117-121):
`{'username': ..., 'comment': ..., 'created_at': ...}` — insertion order is
preserved by `json.dumps`.  The timestamp string is a parameter of the model
(`datetime.utcnow().isoformat()` in the source). -/
def commentObj (u t ts : String) : Json :=
  .obj (.cons "username" (.str u) (.cons "comment" (.str t) (.cons "created_at" (.str ts) .nil)))

/-- `Project.add_comment` at the blob level (app.py 113-123): parse the
stored blob, `append` the new entry, re-serialize.  `none` models the
`AttributeError` Python would raise when the parsed blob is not a list
(`.append` on a non-list). -/
def addCommentBlob (blob u t ts : String) : Option String :=
  match get_comments_list blob with
  | .arr l => some (dumpsStr (.arr (l.push (commentObj u t ts))))
  | _ => none

/-- `Project.add_comment` (app.py 113-123). -/
def Project.add_comment (p : Project) (u t ts : String) : Option Project :=
  match addCommentBlob p.comments u t ts with
  | some b => some { p with comments := b }
  | none => none

/-- Python `str.strip()` whitespace set (what `DataRequired` strips). -/
def isPyWs (c : Char) : Bool :=
  c = ' ' || c = '\t' || c = '\n' || c = '\r' || c = Char.ofNat 11 || c = Char.ofNat 12

/-- Whether a string is falsy to `DataRequired`: empty, or whitespace-only
(`field.data.strip()` is empty). -/
def pyStripEmpty (s : String) : Bool := s.data.all isPyWs

/-- `CommentForm` (app.py 208-213): `DataRequired()` (rejects empty and
whitespace-only text) and `Length(min=5, max=500)`. -/
def commentFormOk (t : String) : Bool :=
  (!pyStripEmpty t) && decide (5 ≤ t.length) && decide (t.length ≤ 500)

/-- The `add_comment` route (app.py 398-411) against an existing project:
validate the form; on success run `Project.add_comment` and commit; on a
validation failure (or a raised error before the assignment) the project is
unchanged. -/
def addCommentRoute (p : Project) (u t ts : String) : Project × Bool :=
  if commentFormOk t then
    match p.add_comment u t ts with
    | some p2 => (p2, true)
    | none => (p, false)
  else (p, false)



/-- Append two modelled JSON arrays. -/
def JArr.append : JArr → JArr → JArr
  | .nil, b => b
  | .cons j a, b => .cons j (a.append b)

/-- A list of characters that may legally follow a serialized numeral: empty
or starting with a non-digit. -/
def headNotDigit : List Char → Prop
  | [] => True
  | c :: _ => isDigit c = false

mutual

/-- Fuel sufficient for `parseVal` to read back a serialized value. -/
def needV : Json → ℕ
  | .null => 1
  | .boolean _ => 1
  | .num _ => 1
  | .str _ => 1
  | .arr .nil => 1
  | .arr (.cons j a) => 1 + max (needV j) (needA a)
  | .obj .nil => 1
  | .obj (.cons _ v o) => 1 + max (needV v + 1) (needO o)

/-- Fuel sufficient for `parseArrTail`. -/
def needA : JArr → ℕ
  | .nil => 1
  | .cons j a => 1 + max (needV j) (needA a)

/-- Fuel sufficient for `parseObjTail`. -/
def needO : JObj → ℕ
  | .nil => 1
  | .cons _ v o => 1 + max (needV v + 1) (needO o)

end

/-! ## Theorems -/

/-! ### Properties of the binary64 rounding model -/

theorem natLog2F_spec : ∀ f n, 1 ≤ n → n ≤ f → 2 ^ natLog2F f n ≤ n ∧ n < 2 ^ (natLog2F f n + 1) := by
  intro f
  induction f with
  | zero => intro n h1 h2; omega
  | succ f ih =>
    intro n h1 h2
    rw [natLog2F]
    by_cases hn : n ≤ 1
    · have hn1 : n = 1 := le_antisymm hn h1
      subst hn1
      simp
    · rw [if_neg hn]
      have h2' : n / 2 ≤ f := by omega
      have h1' : 1 ≤ n / 2 := by omega
      obtain ⟨l, u⟩ := ih (n / 2) h1' h2'
      have e1 : (2 : ℕ) ^ (natLog2F f (n / 2) + 1) = 2 * 2 ^ natLog2F f (n / 2) := by
        rw [pow_succ]; ring
      have e2 : (2 : ℕ) ^ (natLog2F f (n / 2) + 1 + 1) = 2 * 2 ^ (natLog2F f (n / 2) + 1) := by
        rw [pow_succ]; ring
      omega

theorem natLog2_spec (n : ℕ) (h : 1 ≤ n) : 2 ^ natLog2 n ≤ n ∧ n < 2 ^ (natLog2 n + 1) :=
  natLog2F_spec n n h le_rfl

theorem pow2n_eq (n : ℕ) : pow2n n = 2 ^ n := by
  induction n with
  | zero => rfl
  | succ n ih => rw [pow2n, ih, pow_succ]; ring

theorem pow2_eq_zpow (k : ℤ) : pow2 k = (2 : ℚ) ^ k := by
  cases k with
  | ofNat n => rw [pow2, pow2n_eq]; exact (zpow_natCast 2 n).symm
  | negSucc n => rw [pow2, pow2n_eq, zpow_negSucc, one_div]

theorem pow2_pos (k : ℤ) : 0 < pow2 k := by
  rw [pow2_eq_zpow]; positivity

theorem pow2_ne_zero (k : ℤ) : pow2 k ≠ 0 := (pow2_pos k).ne'

theorem pow2_add (j k : ℤ) : pow2 (j + k) = pow2 j * pow2 k := by
  rw [pow2_eq_zpow, pow2_eq_zpow, pow2_eq_zpow]
  exact zpow_add₀ two_ne_zero j k

theorem pow2_le_pow2 {j k : ℤ} (h : j ≤ k) : pow2 j ≤ pow2 k := by
  rw [pow2_eq_zpow, pow2_eq_zpow]
  exact zpow_le_zpow_right₀ one_le_two h

theorem pow2_lt_pow2 {j k : ℤ} (h : j < k) : pow2 j < pow2 k := by
  rw [pow2_eq_zpow, pow2_eq_zpow]
  exact zpow_right_strictMono₀ one_lt_two h

theorem pow2_natCast (n : ℕ) : pow2 (n : ℤ) = (2 : ℚ) ^ n := by
  rw [pow2_eq_zpow, zpow_natCast]

theorem pow2_toNat {k : ℤ} (hk : 0 ≤ k) : pow2 k = (2 : ℚ) ^ k.toNat := by
  rw [← pow2_natCast, Int.toNat_of_nonneg hk]

theorem pow2_mul_pow2_cancel (j k : ℤ) : pow2 j * pow2 (k - j) = pow2 k := by
  rw [← pow2_add]; congr 1; ring

theorem floorExp_spec (q : ℚ) (hq : 0 < q) :
    pow2 (floorExp q) ≤ q ∧ q < pow2 (floorExp q + 1) := by
  have hnum : 0 < q.num := Rat.num_pos.mpr hq
  have haz : ((q.num.toNat : ℤ)) = q.num := Int.toNat_of_nonneg hnum.le
  have ha1 : 1 ≤ q.num.toNat := by omega
  have hb1 : 1 ≤ q.den := q.den_pos
  obtain ⟨la1, la2⟩ := natLog2_spec q.num.toNat ha1
  obtain ⟨lb1, lb2⟩ := natLog2_spec q.den hb1
  set a : ℕ := q.num.toNat
  set La : ℕ := natLog2 a with hLa
  set Lb : ℕ := natLog2 q.den with hLb
  have hden_pos : (0 : ℚ) < (q.den : ℚ) := by exact_mod_cast hb1
  have hq_eq : q = (a : ℚ) / (q.den : ℚ) := by
    conv_lhs => rw [← Rat.num_div_den q]
    rw [← haz]
    push_cast
    ring
  -- strict upper bound in the binade of `La + 1 - Lb`
  have hupper : q < pow2 ((La : ℤ) + 1 - Lb) := by
    rw [hq_eq, div_lt_iff₀ hden_pos]
    have c1 : (a : ℚ) < (2 : ℚ) ^ (La + 1) := by exact_mod_cast la2
    have c2 : (2 : ℚ) ^ Lb ≤ (q.den : ℚ) := by exact_mod_cast lb1
    calc (a : ℚ) < (2 : ℚ) ^ (La + 1) := c1
      _ = pow2 ((La : ℤ) + 1) := by rw [← pow2_natCast]; push_cast; ring_nf
      _ = pow2 ((La : ℤ) + 1 - Lb) * pow2 (Lb : ℤ) := by rw [← pow2_add]; congr 1; ring
      _ = pow2 ((La : ℤ) + 1 - Lb) * (2 : ℚ) ^ Lb := by rw [pow2_natCast]
      _ ≤ pow2 ((La : ℤ) + 1 - Lb) * (q.den : ℚ) := by
          exact mul_le_mul_of_nonneg_left c2 (pow2_pos _).le
  -- strict lower bound below the binade of `La - Lb`
  have hlower : pow2 ((La : ℤ) - Lb - 1) < q := by
    rw [hq_eq, lt_div_iff₀ hden_pos]
    have c1 : (2 : ℚ) ^ La ≤ (a : ℚ) := by exact_mod_cast la1
    have c2 : (q.den : ℚ) < (2 : ℚ) ^ (Lb + 1) := by exact_mod_cast lb2
    calc pow2 ((La : ℤ) - Lb - 1) * (q.den : ℚ)
        < pow2 ((La : ℤ) - Lb - 1) * (2 : ℚ) ^ (Lb + 1) := by
          exact mul_lt_mul_of_pos_left c2 (pow2_pos _)
      _ = pow2 ((La : ℤ) - Lb - 1) * pow2 ((Lb : ℤ) + 1) := by
          rw [← pow2_natCast (Lb + 1)]; push_cast; ring_nf
      _ = pow2 (La : ℤ) := by rw [← pow2_add]; congr 1; ring
      _ = (2 : ℚ) ^ La := pow2_natCast La
      _ ≤ (a : ℚ) := c1
  rw [floorExp]
  simp only [← hLa, ← hLb]
  split_ifs with h
  · refine ⟨h, ?_⟩
    have : (La : ℤ) - Lb + 1 = (La : ℤ) + 1 - Lb := by ring
    rw [this]
    exact hupper
  · constructor
    · exact le_of_lt hlower
    · have : (La : ℤ) - Lb - 1 + 1 = (La : ℤ) - Lb := by ring
      rw [this]
      exact lt_of_not_ge h

theorem floorExp_eq (q : ℚ) (e : ℤ) (hq : 0 < q) (h1 : pow2 e ≤ q)
    (h2 : q < pow2 (e + 1)) : floorExp q = e := by
  obtain ⟨g1, g2⟩ := floorExp_spec q hq
  by_contra hne
  rcases lt_or_gt_of_ne hne with hlt | hgt
  · have : pow2 (floorExp q + 1) ≤ pow2 e := pow2_le_pow2 (by omega)
    linarith
  · have : pow2 (e + 1) ≤ pow2 (floorExp q) := pow2_le_pow2 (by omega)
    linarith

theorem rnd_ge_floor (x : ℚ) : ⌊x⌋ ≤ rnd x := by
  rw [rnd]; split_ifs <;> omega

theorem rnd_le_floor_add_one (x : ℚ) : rnd x ≤ ⌊x⌋ + 1 := by
  rw [rnd]; split_ifs <;> omega

theorem rnd_intCast (n : ℤ) : rnd (n : ℚ) = n := by
  rw [rnd, Int.floor_intCast]
  norm_num

theorem rnd_mono {x y : ℚ} (h : x ≤ y) : rnd x ≤ rnd y := by
  rcases eq_or_lt_of_le (Int.floor_mono h) with heq | hlt
  · rw [rnd, rnd, ← heq]
    have hr : x - (⌊x⌋ : ℚ) ≤ y - (⌊x⌋ : ℚ) := by linarith
    split_ifs <;> first | omega | linarith
  · have h1 := rnd_le_floor_add_one x
    have h2 := rnd_ge_floor y
    omega

theorem x52_bounds (q : ℚ) (hq : 0 < q) :
    pow2 52 ≤ q * pow2 (52 - floorExp q) ∧ q * pow2 (52 - floorExp q) < pow2 53 := by
  obtain ⟨h1, h2⟩ := floorExp_spec q hq
  have hs : 0 < pow2 (52 - floorExp q) := pow2_pos _
  constructor
  · calc pow2 52 = pow2 (floorExp q) * pow2 (52 - floorExp q) :=
        (pow2_mul_pow2_cancel _ _).symm
      _ ≤ q * pow2 (52 - floorExp q) := mul_le_mul_of_nonneg_right h1 hs.le
  · calc q * pow2 (52 - floorExp q)
        < pow2 (floorExp q + 1) * pow2 (52 - floorExp q) := mul_lt_mul_of_pos_right h2 hs
      _ = pow2 53 := by rw [← pow2_add]; congr 1; ring

theorem pow2_52_cast : pow2 52 = ((2 ^ 52 : ℤ) : ℚ) := by
  have h : (52 : ℤ) = ((52 : ℕ) : ℤ) := rfl
  rw [h, pow2_natCast]
  push_cast
  ring

theorem pow2_53_cast : pow2 53 = ((2 ^ 53 : ℤ) : ℚ) := by
  have h : (53 : ℤ) = ((53 : ℕ) : ℤ) := rfl
  rw [h, pow2_natCast]
  push_cast
  ring

theorem rnd52_bounds (q : ℚ) (hq : 0 < q) :
    2 ^ 52 ≤ rnd (q * pow2 (52 - floorExp q)) ∧ rnd (q * pow2 (52 - floorExp q)) ≤ 2 ^ 53 := by
  obtain ⟨h1, h2⟩ := x52_bounds q hq
  have hfl : (2 ^ 52 : ℤ) ≤ ⌊q * pow2 (52 - floorExp q)⌋ := by
    rw [Int.le_floor]
    rw [pow2_52_cast] at h1
    exact h1
  have hfu : ⌊q * pow2 (52 - floorExp q)⌋ < 2 ^ 53 := by
    rw [Int.floor_lt]
    rw [pow2_53_cast] at h2
    exact h2
  have hg := rnd_ge_floor (q * pow2 (52 - floorExp q))
  have hl := rnd_le_floor_add_one (q * pow2 (52 - floorExp q))
  omega

theorem rhe_bounds (q : ℚ) (hq : 0 < q) :
    pow2 (floorExp q) ≤ rhe q ∧ rhe q ≤ pow2 (floorExp q + 1) := by
  obtain ⟨hl, hu⟩ := rnd52_bounds q hq
  have hs : 0 < pow2 (52 - floorExp q) := pow2_pos _
  rw [rhe]
  constructor
  · rw [le_div_iff₀ hs, pow2_mul_pow2_cancel, pow2_52_cast]
    exact_mod_cast hl
  · rw [div_le_iff₀ hs]
    have he : pow2 (floorExp q + 1) * pow2 (52 - floorExp q) = pow2 53 := by
      rw [← pow2_add]; congr 1; ring
    rw [he, pow2_53_cast]
    exact_mod_cast hu

theorem rhe_pos (q : ℚ) (hq : 0 < q) : 0 < rhe q :=
  lt_of_lt_of_le (pow2_pos _) (rhe_bounds q hq).1

theorem fl_zero : fl 0 = 0 := by rw [fl]; norm_num

theorem fl_of_pos {q : ℚ} (hq : 0 < q) : fl q = rhe q := by
  rw [fl, if_neg (not_lt.mpr hq.le), if_neg hq.ne']

theorem fl_of_neg {q : ℚ} (hq : q < 0) : fl q = -(rhe (-q)) := by
  rw [fl, if_pos hq]

theorem fl_pos {q : ℚ} (hq : 0 < q) : 0 < fl q := by
  rw [fl_of_pos hq]; exact rhe_pos q hq

theorem fl_neg_of_neg {q : ℚ} (hq : q < 0) : fl q < 0 := by
  rw [fl_of_neg hq]
  have := rhe_pos (-q) (neg_pos.mpr hq)
  linarith

theorem fl_nonneg {q : ℚ} (hq : 0 ≤ q) : 0 ≤ fl q := by
  rcases eq_or_lt_of_le hq with h | h
  · rw [← h, fl_zero]
  · exact (fl_pos h).le

theorem fl_le_zero_iff (q : ℚ) : fl q ≤ 0 ↔ q ≤ 0 := by
  constructor
  · intro h
    by_contra hc
    push_neg at hc
    exact absurd h (not_le.mpr (fl_pos hc))
  · intro h
    rcases eq_or_lt_of_le h with h' | h'
    · rw [h', fl_zero]
    · exact (fl_neg_of_neg h').le

theorem fl_neg (q : ℚ) : fl (-q) = -fl q := by
  rcases lt_trichotomy q 0 with h | h | h
  · rw [fl_of_neg h, fl_of_pos (neg_pos.mpr h), neg_neg]
  · rw [h]; rw [neg_zero, fl_zero, neg_zero]
  · rw [fl_of_pos h, fl_of_neg (neg_neg_iff_pos.mpr h), neg_neg]

theorem fl_pow2 (k : ℤ) : fl (pow2 k) = pow2 k := by
  have hq : 0 < pow2 k := pow2_pos k
  have he : floorExp (pow2 k) = k :=
    floorExp_eq _ _ hq le_rfl (pow2_lt_pow2 (by omega))
  rw [fl_of_pos hq, rhe, he, pow2_mul_pow2_cancel k 52, pow2_52_cast, rnd_intCast,
    ← pow2_52_cast, div_eq_iff (pow2_ne_zero _), pow2_mul_pow2_cancel]

theorem fl_dyadic (m : ℕ) (j : ℤ) (hm0 : 0 < m) (hm : m ≤ 2 ^ 53) :
    fl ((m : ℚ) * pow2 j) = (m : ℚ) * pow2 j := by
  rcases eq_or_lt_of_le hm with hm53 | hm53
  · -- `m = 2^53`: the value is exactly a power of two
    subst hm53
    have : ((2 ^ 53 : ℕ) : ℚ) * pow2 j = pow2 (53 + j) := by
      rw [pow2_add, pow2_53_cast]
      push_cast
      ring
    rw [this, fl_pow2]
  · have hq : 0 < (m : ℚ) * pow2 j := by
      have : (0 : ℚ) < (m : ℚ) := by exact_mod_cast hm0
      exact mul_pos this (pow2_pos j)
    rw [fl_of_pos hq, rhe]
    set e : ℤ := floorExp ((m : ℚ) * pow2 j) with he
    -- the binade exponent cannot exceed `52 + j`
    have hub : (m : ℚ) * pow2 j < pow2 (53 + j) := by
      rw [pow2_add]
      apply mul_lt_mul_of_pos_right _ (pow2_pos j)
      rw [pow2_53_cast]
      exact_mod_cast hm53
    have he_le : e ≤ 52 + j := by
      obtain ⟨g1, _⟩ := floorExp_spec _ hq
      rw [← he] at g1
      by_contra hc
      push_neg at hc
      have : pow2 (53 + j) ≤ pow2 e := pow2_le_pow2 (by omega)
      linarith
    have ht : 0 ≤ j + (52 - e) := by omega
    have hx : (m : ℚ) * pow2 j * pow2 (52 - e) = ((m * 2 ^ (j + (52 - e)).toNat : ℕ) : ℚ) := by
      rw [mul_assoc, ← pow2_add, pow2_toNat ht]
      push_cast
      ring
    rw [hx]
    have : ((m * 2 ^ (j + (52 - e)).toNat : ℕ) : ℚ) = (((m * 2 ^ (j + (52 - e)).toNat : ℕ) : ℤ) : ℚ) := by
      push_cast
      ring
    rw [this, rnd_intCast, ← this, ← hx]
    exact mul_div_cancel_right₀ _ (pow2_ne_zero _)

theorem fl_natCast (m : ℕ) (hm : m ≤ 2 ^ 53) : fl (m : ℚ) = m := by
  rcases Nat.eq_zero_or_pos m with h0 | h0
  · subst h0
    simpa using fl_zero
  · have h := fl_dyadic m 0 h0 hm
    have h1 : pow2 0 = 1 := rfl
    rw [h1, mul_one] at h
    exact h

theorem fl_mono {p q : ℚ} (h0 : 0 ≤ p) (h : p ≤ q) : fl p ≤ fl q := by
  rcases eq_or_lt_of_le h0 with h0' | h0'
  · rw [← h0', fl_zero]
    exact fl_nonneg (h0'.le.trans h)
  · have hq0 : 0 < q := lt_of_lt_of_le h0' h
    rw [fl_of_pos h0', fl_of_pos hq0]
    have he : floorExp p ≤ floorExp q := by
      by_contra hc
      push_neg at hc
      have h1 := (floorExp_spec p h0').1
      have h2 := (floorExp_spec q hq0).2
      have : pow2 (floorExp q + 1) ≤ pow2 (floorExp p) := pow2_le_pow2 (by omega)
      linarith
    rcases eq_or_lt_of_le he with heq | hlt
    · rw [rhe, rhe, ← heq]
      have hs : 0 < pow2 (52 - floorExp p) := pow2_pos _
      rw [div_le_div_iff_of_pos_right hs]
      have := rnd_mono (mul_le_mul_of_nonneg_right h hs.le)
      exact_mod_cast this
    · calc rhe p ≤ pow2 (floorExp p + 1) := (rhe_bounds p h0').2
        _ ≤ pow2 (floorExp q) := pow2_le_pow2 (by omega)
        _ ≤ rhe q := (rhe_bounds q hq0).1

theorem fl_rhe {q : ℚ} (hq : 0 < q) : fl (rhe q) = rhe q := by
  obtain ⟨hl, hu⟩ := rnd52_bounds q hq
  have hpos : 0 < rnd (q * pow2 (52 - floorExp q)) := by positivity
  have hval : rhe q = ((rnd (q * pow2 (52 - floorExp q))).toNat : ℚ) * pow2 (floorExp q - 52) := by
    rw [rhe, div_eq_mul_inv]
    congr 1
    · exact_mod_cast (Int.toNat_of_nonneg hpos.le).symm
    · rw [pow2_eq_zpow, pow2_eq_zpow, ← zpow_neg]
      congr 1
      ring
  rw [hval]
  apply fl_dyadic
  · omega
  · have h53 : ((2 : ℤ) ^ 53).toNat = 2 ^ 53 := rfl
    omega

theorem fl_idem (q : ℚ) : fl (fl q) = fl q := by
  rcases lt_trichotomy q 0 with h | h | h
  · rw [fl_of_neg h, fl_neg, fl_rhe (neg_pos.mpr h)]
  · rw [h, fl_zero, fl_zero]
  · rw [fl_of_pos h, fl_rhe h]

/-! ### The float accumulation `sum([float(a) for a in ...])` -/

theorem floatSumList_nil : floatSumList [] = 0 := rfl

theorem floatSumList_singleton (a : ℚ) : floatSumList [a] = fl a := by
  rw [floatSumList, List.foldl_cons, List.foldl_nil, zero_add, fl_idem]

theorem floatSumList_pair (a b : ℚ) : floatSumList [a, b] = fl (fl a + fl b) := by
  rw [floatSumList, List.foldl_cons, List.foldl_cons, List.foldl_nil, zero_add, fl_idem]

theorem floatSumList_triple (a b c : ℚ) :
    floatSumList [a, b, c] = fl (fl (fl a + fl b) + fl c) := by
  rw [floatSumList, List.foldl_cons, List.foldl_cons, List.foldl_cons, List.foldl_nil,
    zero_add, fl_idem]

theorem floatFold_nonneg : ∀ (l : List ℚ) (acc : ℚ), 0 ≤ acc → (∀ a ∈ l, 0 ≤ a) →
    0 ≤ l.foldl (fun acc a => fl (acc + fl a)) acc := by
  intro l
  induction l with
  | nil =>
    intro acc h _
    simpa using h
  | cons a l ih =>
    intro acc hacc hall
    rw [List.foldl_cons]
    apply ih
    · apply fl_nonneg
      have ha : 0 ≤ a := hall a (List.mem_cons_self a l)
      have := fl_nonneg ha
      linarith
    · intro b hb
      exact hall b (List.mem_cons_of_mem a hb)

theorem floatSumList_nonneg (l : List ℚ) (h : ∀ a ∈ l, 0 ≤ a) : 0 ≤ floatSumList l :=
  floatFold_nonneg l 0 le_rfl h

theorem floatFold_image : ∀ (l : List ℚ) (acc : ℚ),
    l.foldl (fun acc a => fl (acc + fl a)) acc = acc ∨
      ∃ w, l.foldl (fun acc a => fl (acc + fl a)) acc = fl w := by
  intro l
  induction l with
  | nil =>
    intro acc
    left
    rfl
  | cons a l ih =>
    intro acc
    rw [List.foldl_cons]
    rcases ih (fl (acc + fl a)) with h | ⟨w, hw⟩
    · right
      exact ⟨acc + fl a, h⟩
    · right
      exact ⟨w, hw⟩

theorem fl_floatSumList (l : List ℚ) : fl (floatSumList l) = floatSumList l := by
  rcases floatFold_image l 0 with h | ⟨w, hw⟩
  · rw [floatSumList, h, fl_zero]
  · rw [floatSumList, hw, fl_idem]

theorem floatFold_natCast : ∀ (l : List ℕ) (m : ℕ), m + l.sum ≤ 2 ^ 53 →
    (l.map (Nat.cast : ℕ → ℚ)).foldl (fun acc a => fl (acc + fl a)) (m : ℚ)
      = ((m + l.sum : ℕ) : ℚ) := by
  intro l
  induction l with
  | nil =>
    intro m hm
    simp
  | cons a l ih =>
    intro m hm
    rw [List.sum_cons] at hm
    rw [List.map_cons, List.foldl_cons]
    have h1 : fl (a : ℚ) = a := fl_natCast a (by omega)
    have h2 : fl ((m : ℚ) + (a : ℚ)) = ((m + a : ℕ) : ℚ) := by
      have hcast : (m : ℚ) + (a : ℚ) = ((m + a : ℕ) : ℚ) := by push_cast; ring
      rw [hcast, fl_natCast (m + a) (by omega)]
    rw [h1, h2, ih (m + a) (by omega)]
    congr 1
    rw [List.sum_cons]
    omega

theorem floatSumList_natCast (l : List ℕ) (h : l.sum ≤ 2 ^ 53) :
    floatSumList (l.map (Nat.cast : ℕ → ℚ)) = (l.sum : ℚ) := by
  have h0 := floatFold_natCast l 0 (by omega)
  rw [Nat.cast_zero, zero_add] at h0
  rw [floatSumList, h0]

theorem sum_map_natCast (l : List ℕ) : ((l.map (Nat.cast : ℕ → ℚ)).sum) = (l.sum : ℚ) := by
  induction l with
  | nil => simp
  | cons a l ih =>
    rw [List.map_cons, List.sum_cons, ih, List.sum_cons]
    push_cast
    ring

/-! ### Evaluation of `fl` at concrete rationals -/

theorem pow2_val_zero : pow2 0 = 1 := rfl

theorem pow2_val_one : pow2 1 = 2 := by
  rw [show ((1 : ℤ)) = ((1 : ℕ) : ℤ) from rfl, pow2_natCast]
  norm_num

theorem pow2_val_two : pow2 2 = 4 := by
  rw [show ((2 : ℤ)) = ((2 : ℕ) : ℤ) from rfl, pow2_natCast]
  norm_num

theorem pow2_val_50 : pow2 50 = 1125899906842624 := by
  rw [show ((50 : ℤ)) = ((50 : ℕ) : ℤ) from rfl, pow2_natCast]
  norm_num

theorem pow2_val_51 : pow2 51 = 2251799813685248 := by
  rw [show ((51 : ℤ)) = ((51 : ℕ) : ℤ) from rfl, pow2_natCast]
  norm_num

theorem pow2_val_52 : pow2 52 = 4503599627370496 := by
  rw [pow2_52_cast]
  norm_num

theorem pow2_neg (k : ℤ) : pow2 (-k) = 1 / pow2 k := by
  rw [pow2_eq_zpow, pow2_eq_zpow, zpow_neg, one_div]

/-- Evaluate `fl` when the scaled value rounds down (fraction below one
half). -/
theorem fl_eval_lt (q : ℚ) (e n : ℤ) (s : ℚ) (hq : 0 < q)
    (h1 : pow2 e ≤ q) (h2 : q < pow2 (e + 1)) (hs : pow2 (52 - e) = s)
    (hnx : (n : ℚ) ≤ q * s) (hxn : q * s < (n : ℚ) + 1)
    (hr : q * s - (n : ℚ) < 1 / 2) :
    fl q = (n : ℚ) / s := by
  have he : floorExp q = e := floorExp_eq q e hq h1 h2
  have hfl : ⌊q * s⌋ = n := by
    rw [Int.floor_eq_iff]
    exact ⟨hnx, by exact_mod_cast hxn⟩
  rw [fl_of_pos hq, rhe, he, hs, rnd, hfl]
  rw [if_neg (by linarith), if_pos hr]

/-- Evaluate `fl` when the scaled value rounds up (fraction above one
half). -/
theorem fl_eval_gt (q : ℚ) (e n : ℤ) (s : ℚ) (hq : 0 < q)
    (h1 : pow2 e ≤ q) (h2 : q < pow2 (e + 1)) (hs : pow2 (52 - e) = s)
    (hnx : (n : ℚ) ≤ q * s) (hxn : q * s < (n : ℚ) + 1)
    (hr : 1 / 2 < q * s - (n : ℚ)) :
    fl q = ((n : ℚ) + 1) / s := by
  have he : floorExp q = e := floorExp_eq q e hq h1 h2
  have hfl : ⌊q * s⌋ = n := by
    rw [Int.floor_eq_iff]
    exact ⟨hnx, by exact_mod_cast hxn⟩
  rw [fl_of_pos hq, rhe, he, hs, rnd, hfl]
  rw [if_pos hr]
  push_cast
  ring

/-- Evaluate `fl` at an exact tie with an even floor (round down). -/
theorem fl_eval_tie_even (q : ℚ) (e n : ℤ) (s : ℚ) (hq : 0 < q)
    (h1 : pow2 e ≤ q) (h2 : q < pow2 (e + 1)) (hs : pow2 (52 - e) = s)
    (hnx : (n : ℚ) ≤ q * s) (hxn : q * s < (n : ℚ) + 1)
    (hr : q * s - (n : ℚ) = 1 / 2) (hpar : n % 2 = 0) :
    fl q = (n : ℚ) / s := by
  have he : floorExp q = e := floorExp_eq q e hq h1 h2
  have hfl : ⌊q * s⌋ = n := by
    rw [Int.floor_eq_iff]
    exact ⟨hnx, by exact_mod_cast hxn⟩
  rw [fl_of_pos hq, rhe, he, hs, rnd, hfl]
  rw [if_neg (by rw [hr]; exact lt_irrefl _), if_neg (by rw [hr]; exact lt_irrefl _), if_pos hpar]

/-- Evaluate `fl` at an exact tie with an odd floor (round up). -/
theorem fl_eval_tie_odd (q : ℚ) (e n : ℤ) (s : ℚ) (hq : 0 < q)
    (h1 : pow2 e ≤ q) (h2 : q < pow2 (e + 1)) (hs : pow2 (52 - e) = s)
    (hnx : (n : ℚ) ≤ q * s) (hxn : q * s < (n : ℚ) + 1)
    (hr : q * s - (n : ℚ) = 1 / 2) (hpar : n % 2 = 1) :
    fl q = ((n : ℚ) + 1) / s := by
  have he : floorExp q = e := floorExp_eq q e hq h1 h2
  have hfl : ⌊q * s⌋ = n := by
    rw [Int.floor_eq_iff]
    exact ⟨hnx, by exact_mod_cast hxn⟩
  rw [fl_of_pos hq, rhe, he, hs, rnd, hfl]
  rw [if_neg (by rw [hr]; exact lt_irrefl _), if_neg (by rw [hr]; exact lt_irrefl _),
    if_neg (by omega)]
  push_cast
  ring

/-- Evaluate `fl` at a value exactly representable as `m / 2^k`
(`m ≤ 2^53`). -/
theorem fl_eval_dyadic (m : ℕ) (k : ℕ) (v : ℚ) (hm0 : 0 < m) (hm : m ≤ 2 ^ 53)
    (hv : ((m : ℚ)) / (2 : ℚ) ^ k = v) : fl v = v := by
  have h := fl_dyadic m (-(k : ℤ)) hm0 hm
  rw [pow2_neg, pow2_natCast] at h
  have hv' : (m : ℚ) * (1 / (2 : ℚ) ^ k) = v := by
    rw [← hv]
    ring
  rwa [hv'] at h

/-- `float(1.1)`: the binary64 value of the decimal `1.10`. -/
theorem fl_val_11_10 : fl (11 / 10) = 4953959590107546 / 4503599627370496 := by
  have h := fl_eval_gt (11 / 10) 0 4953959590107545 4503599627370496 (by norm_num)
    (by rw [pow2_val_zero]; norm_num) (by rw [show (0 : ℤ) + 1 = 1 from rfl, pow2_val_one]; norm_num)
    (by rw [show (52 : ℤ) - 0 = 52 from rfl, pow2_val_52]) (by norm_num) (by norm_num) (by norm_num)
  rw [h]
  norm_num

/-- `float(2.2)`: the binary64 value of the decimal `2.20`. -/
theorem fl_val_11_5 : fl (11 / 5) = 4953959590107546 / 2251799813685248 := by
  have h := fl_eval_gt (11 / 5) 1 4953959590107545 2251799813685248 (by norm_num)
    (by rw [pow2_val_one]; norm_num) (by rw [show (1 : ℤ) + 1 = 2 from rfl, pow2_val_two]; norm_num)
    (by rw [show (52 : ℤ) - 1 = 51 from rfl, pow2_val_51]) (by norm_num) (by norm_num) (by norm_num)
  rw [h]
  norm_num

/-- `float(1.3)`: the binary64 value of the decimal `1.30`. -/
theorem fl_val_13_10 : fl (13 / 10) = 5854679515581645 / 4503599627370496 := by
  have h := fl_eval_gt (13 / 10) 0 5854679515581644 4503599627370496 (by norm_num)
    (by rw [pow2_val_zero]; norm_num) (by rw [show (0 : ℤ) + 1 = 1 from rfl, pow2_val_one]; norm_num)
    (by rw [show (52 : ℤ) - 0 = 52 from rfl, pow2_val_52]) (by norm_num) (by norm_num) (by norm_num)
  rw [h]
  norm_num

/-- `float(1.5)` is exact. -/
theorem fl_val_3_2 : fl (3 / 2) = 3 / 2 := by
  have h := fl_eval_dyadic 3 1 (3 / 2) (by norm_num) (by norm_num) (by norm_num)
  exact h

/-- `float(3.3)`: the binary64 value of the decimal `3.30` (rounds down). -/
theorem fl_val_33_10 : fl (33 / 10) = 7430939385161318 / 2251799813685248 := by
  have h := fl_eval_lt (33 / 10) 1 7430939385161318 2251799813685248 (by norm_num)
    (by rw [pow2_val_one]; norm_num) (by rw [show (1 : ℤ) + 1 = 2 from rfl, pow2_val_two]; norm_num)
    (by rw [show (52 : ℤ) - 1 = 51 from rfl, pow2_val_51]) (by norm_num) (by norm_num) (by norm_num)
  exact h

/-! ### Totals of the concrete contribution sequences used as counterexamples -/

theorem total_pair_val :
    floatSumList [11 / 10, 11 / 5] = 7430939385161319 / 2251799813685248 := by
  rw [floatSumList_pair, fl_val_11_10, fl_val_11_5]
  have h1 : (4953959590107546 : ℚ) / 4503599627370496 + 4953959590107546 / 2251799813685248
      = 7430939385161319 / 2251799813685248 := by norm_num
  rw [h1]
  exact fl_eval_dyadic 7430939385161319 51 _ (by norm_num) (by norm_num) (by norm_num)

theorem total_t1_val :
    floatSumList [11 / 10, 13 / 10, 3 / 2] = 8782019273372468 / 2251799813685248 := by
  rw [floatSumList_triple, fl_val_11_10, fl_val_13_10, fl_val_3_2]
  have h1 : (4953959590107546 : ℚ) / 4503599627370496 + 5854679515581645 / 4503599627370496
      = 10808639105689191 / 4503599627370496 := by norm_num
  rw [h1]
  have h2 : fl (10808639105689191 / 4503599627370496) = 5404319552844596 / 2251799813685248 := by
    have h := fl_eval_tie_odd (10808639105689191 / 4503599627370496) 1 5404319552844595
      2251799813685248 (by norm_num) (by rw [pow2_val_one]; norm_num)
      (by rw [show (1 : ℤ) + 1 = 2 from rfl, pow2_val_two]; norm_num)
      (by rw [show (52 : ℤ) - 1 = 51 from rfl, pow2_val_51]) (by norm_num) (by norm_num)
      (by norm_num) (by norm_num)
    rw [h]
    norm_num
  rw [h2]
  have h3 : (5404319552844596 : ℚ) / 2251799813685248 + 3 / 2
      = 8782019273372468 / 2251799813685248 := by norm_num
  rw [h3]
  exact fl_eval_dyadic 8782019273372468 51 _ (by norm_num) (by norm_num) (by norm_num)

theorem total_t2_val :
    floatSumList [3 / 2, 13 / 10, 11 / 10] = 8782019273372467 / 2251799813685248 := by
  rw [floatSumList_triple, fl_val_3_2, fl_val_13_10, fl_val_11_10]
  have h1 : (3 : ℚ) / 2 + 5854679515581645 / 4503599627370496
      = 12610078956637389 / 4503599627370496 := by norm_num
  rw [h1]
  have h2 : fl (12610078956637389 / 4503599627370496) = 6305039478318694 / 2251799813685248 := by
    have h := fl_eval_tie_even (12610078956637389 / 4503599627370496) 1 6305039478318694
      2251799813685248 (by norm_num) (by rw [pow2_val_one]; norm_num)
      (by rw [show (1 : ℤ) + 1 = 2 from rfl, pow2_val_two]; norm_num)
      (by rw [show (52 : ℤ) - 1 = 51 from rfl, pow2_val_51]) (by norm_num) (by norm_num)
      (by norm_num) (by norm_num)
    rw [h]
    norm_num
  rw [h2]
  have h3 : (6305039478318694 : ℚ) / 2251799813685248 + 4953959590107546 / 4503599627370496
      = 8782019273372467 / 2251799813685248 := by norm_num
  rw [h3]
  exact fl_eval_dyadic 8782019273372467 51 _ (by norm_num) (by norm_num) (by norm_num)

/-! ### Claim C1 -/

/-- Claim C1 as stated is false on the code: `get_total_raised` sums the
`float(...)`-converted amounts with binary64 additions, so for the decimal
amounts 1.10 and 2.20 it returns 3.3000000000000003..., not the exact sum
3.30; and for the amounts 1.10, 1.30, 1.50 the result depends on the
recording order (3.9000000000000004 versus 3.9). -/
theorem c1_counterexample :
    (Project.mk 100 "" [⟨11 / 10, 1, 1⟩, ⟨11 / 5, 2, 1⟩]).get_total_raised
        ≠ 11 / 10 + 11 / 5 ∧
      (Project.mk 100 "" [⟨11 / 10, 1, 1⟩, ⟨13 / 10, 2, 1⟩, ⟨3 / 2, 3, 1⟩]).get_total_raised
        ≠ (Project.mk 100 "" [⟨3 / 2, 1, 1⟩, ⟨13 / 10, 2, 1⟩, ⟨11 / 10, 3, 1⟩]).get_total_raised := by
  constructor
  · have hm : (Project.mk 100 "" [⟨11 / 10, 1, 1⟩, ⟨11 / 5, 2, 1⟩]).get_total_raised
        = floatSumList [11 / 10, 11 / 5] := rfl
    rw [hm, total_pair_val]
    norm_num
  · have hm1 : (Project.mk 100 "" [⟨11 / 10, 1, 1⟩, ⟨13 / 10, 2, 1⟩, ⟨3 / 2, 3, 1⟩]).get_total_raised
        = floatSumList [11 / 10, 13 / 10, 3 / 2] := rfl
    have hm2 : (Project.mk 100 "" [⟨3 / 2, 1, 1⟩, ⟨13 / 10, 2, 1⟩, ⟨11 / 10, 3, 1⟩]).get_total_raised
        = floatSumList [3 / 2, 13 / 10, 11 / 10] := rfl
    rw [hm1, hm2, total_t1_val, total_t2_val]
    norm_num

/-- Claim C1, amended: `get_total_raised` is the left-to-right binary64
accumulation of the float-converted amounts.  When every recorded amount is a
whole number of currency units and the exact total is at most `2^53`, no
rounding occurs: the result is exactly the sum of the recorded amounts and is
independent of the recording order.  (For fractional amounts the result can
differ from the exact sum and depend on the order — see the
counterexample.) -/
theorem c1_total_exact_on_whole_units (p : Project) (l : List ℕ)
    (hl : p.contributions.map (·.amount) = l.map (Nat.cast : ℕ → ℚ))
    (hsum : l.sum ≤ 2 ^ 53) :
    p.get_total_raised = (l.sum : ℚ) ∧
      ∀ (p2 : Project) (l2 : List ℕ),
        p2.contributions.map (·.amount) = l2.map (Nat.cast : ℕ → ℚ) →
        l2.Perm l → p2.get_total_raised = p.get_total_raised := by
  have main : p.get_total_raised = (l.sum : ℚ) := by
    rw [Project.get_total_raised, hl]
    exact floatSumList_natCast l hsum
  refine ⟨main, ?_⟩
  intro p2 l2 hl2 hperm
  have hs2 : l2.sum = l.sum := hperm.sum_eq
  rw [Project.get_total_raised, hl2, floatSumList_natCast l2 (by rw [hs2]; exact hsum), hs2, main]

theorem c1_total_exact_on_whole_units_witness :
    ((Project.mk 100 "" [⟨30, 1, 1⟩, ⟨40, 2, 1⟩, ⟨50, 3, 1⟩]).contributions.map (·.amount)
        = ([30, 40, 50] : List ℕ).map (Nat.cast : ℕ → ℚ) ∧
      ([30, 40, 50] : List ℕ).sum ≤ 2 ^ 53) ∧
      ((Project.mk 100 "" [⟨30, 1, 1⟩, ⟨40, 2, 1⟩, ⟨50, 3, 1⟩]).get_total_raised
          = (([30, 40, 50] : List ℕ).sum : ℚ) ∧
        ∀ (p2 : Project) (l2 : List ℕ),
          p2.contributions.map (·.amount) = l2.map (Nat.cast : ℕ → ℚ) →
          l2.Perm [30, 40, 50] →
          p2.get_total_raised
            = (Project.mk 100 "" [⟨30, 1, 1⟩, ⟨40, 2, 1⟩, ⟨50, 3, 1⟩]).get_total_raised) :=
  ⟨⟨by norm_num, by norm_num⟩,
    c1_total_exact_on_whole_units _ [30, 40, 50] (by norm_num) (by norm_num)⟩

/-! ### Claim C2 -/

/-- Claim C2: for every project state with nonnegative recorded amounts, the
progress percentage is in [0, 100]; a goal `≤ 0` yields exactly `0` (the
division is never reached), and whenever the computed total is at least a
positive goal the result is exactly `100` (the clamp). -/
theorem c2_progress_percentage (p : Project)
    (h : ∀ c ∈ p.contributions, 0 ≤ c.amount) :
    (0 ≤ p.get_progress_percentage ∧ p.get_progress_percentage ≤ 100) ∧
      (p.funding_goal ≤ 0 → p.get_progress_percentage = 0) ∧
      (0 < p.funding_goal → p.funding_goal ≤ p.get_total_raised →
        p.get_progress_percentage = 100) := by
  have htotal_nonneg : 0 ≤ p.get_total_raised := by
    rw [Project.get_total_raised]
    apply floatSumList_nonneg
    intro a ha
    obtain ⟨c, hc, hce⟩ := List.mem_map.mp ha
    rw [← hce]
    exact h c hc
  refine ⟨?_, ?_, ?_⟩
  · rw [Project.get_progress_percentage]
    split_ifs with hg
    · norm_num
    · push_neg at hg
      constructor
      · apply le_min
        · apply fl_nonneg
          have h1 : 0 ≤ p.get_total_raised / fl p.funding_goal :=
            div_nonneg htotal_nonneg hg.le
          have h2 : 0 ≤ fl (p.get_total_raised / fl p.funding_goal) := fl_nonneg h1
          have h3 : (0 : ℚ) ≤ 100 := by norm_num
          exact mul_nonneg h2 h3
        · norm_num
      · exact min_le_right _ _
  · intro hgoal
    rw [Project.get_progress_percentage, if_pos ((fl_le_zero_iff _).mpr hgoal)]
  · intro hg0 hge
    have hflg_pos : 0 < fl p.funding_goal := fl_pos hg0
    have hfix : fl p.get_total_raised = p.get_total_raised := by
      rw [Project.get_total_raised]
      exact fl_floatSumList _
    have hle : fl p.funding_goal ≤ p.get_total_raised := by
      calc fl p.funding_goal ≤ fl p.get_total_raised := fl_mono hg0.le hge
        _ = p.get_total_raised := hfix
    have hq1 : (1 : ℚ) ≤ p.get_total_raised / fl p.funding_goal := by
      rw [le_div_iff₀ hflg_pos]
      linarith
    have hone : fl (1 : ℚ) = 1 := by
      have := fl_natCast 1 (by norm_num)
      simpa using this
    have hq2 : (1 : ℚ) ≤ fl (p.get_total_raised / fl p.funding_goal) := by
      calc (1 : ℚ) = fl 1 := hone.symm
        _ ≤ fl (p.get_total_raised / fl p.funding_goal) := fl_mono (by norm_num) hq1
    have hcent : fl (100 : ℚ) = 100 := by
      have := fl_natCast 100 (by norm_num)
      simpa using this
    have hq3 : (100 : ℚ) ≤ fl (fl (p.get_total_raised / fl p.funding_goal) * 100) := by
      have hmul : (100 : ℚ) ≤ fl (p.get_total_raised / fl p.funding_goal) * 100 := by
        linarith
      calc (100 : ℚ) = fl 100 := hcent.symm
        _ ≤ fl (fl (p.get_total_raised / fl p.funding_goal) * 100) :=
            fl_mono (by norm_num) hmul
    rw [Project.get_progress_percentage, if_neg (not_le.mpr hflg_pos)]
    exact min_eq_right hq3

theorem c2_progress_percentage_witness :
    (∀ c ∈ (Project.mk 100 "" [⟨30, 1, 1⟩, ⟨40, 2, 1⟩, ⟨50, 3, 1⟩]).contributions,
        0 ≤ c.amount) ∧
      ((0 ≤ (Project.mk 100 "" [⟨30, 1, 1⟩, ⟨40, 2, 1⟩, ⟨50, 3, 1⟩]).get_progress_percentage ∧
          (Project.mk 100 "" [⟨30, 1, 1⟩, ⟨40, 2, 1⟩, ⟨50, 3, 1⟩]).get_progress_percentage ≤ 100) ∧
        ((Project.mk 100 "" [⟨30, 1, 1⟩, ⟨40, 2, 1⟩, ⟨50, 3, 1⟩]).funding_goal ≤ 0 →
          (Project.mk 100 "" [⟨30, 1, 1⟩, ⟨40, 2, 1⟩, ⟨50, 3, 1⟩]).get_progress_percentage = 0) ∧
        (0 < (Project.mk 100 "" [⟨30, 1, 1⟩, ⟨40, 2, 1⟩, ⟨50, 3, 1⟩]).funding_goal →
          (Project.mk 100 "" [⟨30, 1, 1⟩, ⟨40, 2, 1⟩, ⟨50, 3, 1⟩]).funding_goal ≤
            (Project.mk 100 "" [⟨30, 1, 1⟩, ⟨40, 2, 1⟩, ⟨50, 3, 1⟩]).get_total_raised →
          (Project.mk 100 "" [⟨30, 1, 1⟩, ⟨40, 2, 1⟩, ⟨50, 3, 1⟩]).get_progress_percentage = 100)) :=
  ⟨by intro c hc; fin_cases hc <;> norm_num,
    c2_progress_percentage _ (by intro c hc; fin_cases hc <;> norm_num)⟩

/-! ### Claim C3 -/

/-- Claim C3 is false on the code: even a single recorded contribution of
1.10 currency units is aggregated through binary64 (`float`), so the total
is not the exact decimal amount. -/
theorem c3_counterexample :
    (Project.mk 100 "" [⟨11 / 10, 1, 1⟩]).get_total_raised ≠ 11 / 10 := by
  have hm : (Project.mk 100 "" [⟨11 / 10, 1, 1⟩]).get_total_raised
      = floatSumList [11 / 10] := rfl
  rw [hm, floatSumList_singleton, fl_val_11_10]
  norm_num

/-- Claim C3, amended: the amounts are stored exactly (DECIMAL(10,2)), but
`get_total_raised` converts them to binary64 floats and accumulates in
binary64, so rounding error can appear: there is a sequence of valid
amounts — whole-cent values inside the allowed [1, 10000] range — whose
computed total differs from the exact sum of the recorded amounts. -/
theorem c3_not_exact_arithmetic :
    ∃ amounts : List ℚ,
      (∀ a ∈ amounts, 1 ≤ a ∧ a ≤ 10000 ∧ (a * 100).den = 1) ∧
        ∀ p : Project, p.contributions.map (·.amount) = amounts →
          p.get_total_raised ≠ amounts.sum := by
  refine ⟨[11 / 10, 11 / 5], ?_, ?_⟩
  · intro a ha
    fin_cases ha
    · refine ⟨by norm_num, by norm_num, ?_⟩
      have h1 : (11 / 10 * 100 : ℚ) = 110 := by norm_num
      rw [h1]
      rfl
    · refine ⟨by norm_num, by norm_num, ?_⟩
      have h1 : (11 / 5 * 100 : ℚ) = 220 := by norm_num
      rw [h1]
      rfl
  · intro p hp
    have hm : p.get_total_raised = floatSumList [11 / 10, 11 / 5] := by
      rw [Project.get_total_raised, hp]
    rw [hm, total_pair_val]
    have hsum : ([11 / 10, 11 / 5] : List ℚ).sum = 33 / 10 := by
      simp
      norm_num
    rw [hsum]
    norm_num

/-! ### Claim C4 -/

/-- Claim C4: starting from a project with no contributions, `N` successful
`contribute` requests leave exactly `N` rows, so `get_contribution_count`
returns `N`; and any failed request — form validation failure or a rolled
back commit — leaves the project (and hence the count) unchanged. -/
theorem c4_contribution_count (p0 : Project) (h0 : p0.contributions = [])
    (calls : List (ℕ × ℕ × ℚ)) (hall : ∀ c ∈ calls, contributionFormOk c.2.2 = true) :
    (calls.foldl (fun p c => (contribute p c.1 c.2.1 c.2.2 true).1) p0).get_contribution_count
        = calls.length ∧
      ∀ (p : Project) (uid pid : ℕ) (a : ℚ) (ok : Bool),
        contributionFormOk a = false ∨ ok = false → (contribute p uid pid a ok).1 = p := by
  have main : ∀ (calls : List (ℕ × ℕ × ℚ)) (p : Project),
      (∀ c ∈ calls, contributionFormOk c.2.2 = true) →
      (calls.foldl (fun p c => (contribute p c.1 c.2.1 c.2.2 true).1) p).get_contribution_count
        = p.get_contribution_count + calls.length := by
    intro calls
    induction calls with
    | nil =>
      intro p _
      simp [List.foldl_nil]
    | cons c cs ih =>
      intro p hall'
      rw [List.foldl_cons]
      have hc : contributionFormOk c.2.2 = true := hall' c (List.mem_cons_self _ _)
      rw [ih _ (fun x hx => hall' x (List.mem_cons_of_mem _ hx))]
      have hstep : (contribute p c.1 c.2.1 c.2.2 true).1.get_contribution_count
          = p.get_contribution_count + 1 := by
        rw [contribute, if_pos hc]
        simp [Project.get_contribution_count]
      rw [hstep, List.length_cons]
      omega
  constructor
  · have := main calls p0 hall
    rw [this, Project.get_contribution_count, h0]
    simp
  · intro p uid pid a ok hfail
    rcases hfail with hf | hf
    · simp [contribute, hf]
    · rcases hb : contributionFormOk a with hv | hv
      · simp [contribute, hb]
      · simp [contribute, hb, hf]

theorem c4_contribution_count_witness :
    ((Project.mk 100 "" []).contributions = [] ∧
      ∀ c ∈ ([(1, 1, 50), (2, 1, 75)] : List (ℕ × ℕ × ℚ)), contributionFormOk c.2.2 = true) ∧
      ((([(1, 1, 50), (2, 1, 75)] : List (ℕ × ℕ × ℚ)).foldl
            (fun p c => (contribute p c.1 c.2.1 c.2.2 true).1)
            (Project.mk 100 "" [])).get_contribution_count
          = ([(1, 1, 50), (2, 1, 75)] : List (ℕ × ℕ × ℚ)).length ∧
        ∀ (p : Project) (uid pid : ℕ) (a : ℚ) (ok : Bool),
          contributionFormOk a = false ∨ ok = false → (contribute p uid pid a ok).1 = p) :=
  ⟨⟨rfl, by intro c hc; fin_cases hc <;> norm_num [contributionFormOk]⟩,
    c4_contribution_count (Project.mk 100 "" []) rfl [(1, 1, 50), (2, 1, 75)]
      (by intro c hc; fin_cases hc <;> norm_num [contributionFormOk])⟩

/-! ### Claim C5 -/

theorem contributionFormOk_iff (a : ℚ) :
    contributionFormOk a = true ↔ 1 ≤ a ∧ a ≤ 10000 := by
  rw [contributionFormOk]
  simp only [Bool.and_eq_true, Bool.not_eq_true', beq_eq_false_iff_ne, ne_eq,
    decide_eq_true_eq]
  constructor
  · rintro ⟨⟨_, h1⟩, h2⟩
    exact ⟨h1, h2⟩
  · rintro ⟨h1, h2⟩
    refine ⟨⟨?_, h1⟩, h2⟩
    intro h
    rw [h] at h1
    norm_num at h1

/-- Claim C5: the contribution form fails exactly when the amount is out of
bounds (`≤ 0`, below the floor of 1, or above the ceiling of 10000), and for
any amount inside [1, 10000] the request against an existing project
succeeds, appending exactly one new row and leaving every existing row
untouched. -/
theorem c5_record_contribution (p : Project) (uid pid : ℕ) (a : ℚ) :
    (contributionFormOk a = false ↔ (a ≤ 0 ∨ a < 1 ∨ 10000 < a)) ∧
      (1 ≤ a → a ≤ 10000 →
        (contribute p uid pid a true).1.contributions
            = p.contributions ++ [⟨a, uid, pid⟩] ∧
          (contribute p uid pid a true).2 = true) := by
  constructor
  · rw [← Bool.not_eq_true, contributionFormOk_iff]
    constructor
    · intro h
      by_cases h1 : 1 ≤ a
      · by_cases h2 : a ≤ 10000
        · exact absurd ⟨h1, h2⟩ h
        · right; right; exact lt_of_not_ge h2
      · right; left; exact lt_of_not_ge h1
    · intro h hc
      obtain ⟨h1, h2⟩ := hc
      rcases h with h | h | h <;> linarith
  · intro h1 h2
    have hv : contributionFormOk a = true := (contributionFormOk_iff a).mpr ⟨h1, h2⟩
    rw [contribute, if_pos hv]
    exact ⟨rfl, rfl⟩

theorem c5_record_contribution_witness :
    (contributionFormOk 50 = false ↔ ((50 : ℚ) ≤ 0 ∨ (50 : ℚ) < 1 ∨ 10000 < (50 : ℚ))) ∧
      ((1 : ℚ) ≤ 50 → (50 : ℚ) ≤ 10000 →
        (contribute (Project.mk 100 "" []) 1 1 50 true).1.contributions
            = (Project.mk 100 "" []).contributions ++ [⟨50, 1, 1⟩] ∧
          (contribute (Project.mk 100 "" []) 1 1 50 true).2 = true) :=
  c5_record_contribution (Project.mk 100 "" []) 1 1 50

/-! ### Claim C9 -/

/-- Claim C9 is false on the code: the SQL aggregate path is exact decimal
arithmetic while `Project.get_total_raised` rounds through binary64, so for
a single stored contribution of 3.30 units the two disagree. -/
theorem c9_counterexample :
    sqlTotalRaised [⟨33 / 10, 1, 7⟩] 7 = 33 / 10 ∧
      (Project.mk 100 "" [⟨33 / 10, 1, 7⟩]).get_total_raised ≠ 33 / 10 := by
  constructor
  · simp [sqlTotalRaised, sqlSum]
  · have hm : (Project.mk 100 "" [⟨33 / 10, 1, 7⟩]).get_total_raised
        = floatSumList [33 / 10] := rfl
    rw [hm, floatSumList_singleton, fl_val_33_10]
    norm_num

/-- Claim C9, amended: the two total-raised paths agree on the empty
contribution set (both 0, the SQL `NULL` being coalesced by `or 0`) and on
any contribution set of whole-unit amounts with total at most `2^53`; in
general they differ, because the SQL path sums DECIMAL values exactly while
the in-memory path rounds through binary64. -/
theorem c9_sql_vs_memory (dbc : List Contribution) (pid : ℕ) (p : Project)
    (hmatch : p.contributions = dbc.filter (fun c => c.project_id == pid)) :
    (p.contributions = [] → sqlTotalRaised dbc pid = 0 ∧ p.get_total_raised = 0) ∧
      ∀ l : List ℕ, p.contributions.map (·.amount) = l.map (Nat.cast : ℕ → ℚ) →
        l.sum ≤ 2 ^ 53 → sqlTotalRaised dbc pid = p.get_total_raised := by
  have hsql : sqlTotalRaised dbc pid = (p.contributions.map (·.amount)).sum := by
    rw [sqlTotalRaised, ← hmatch]
    cases hc : p.contributions.map (·.amount) with
    | nil => simp [sqlSum]
    | cons a t => simp [sqlSum]
  constructor
  · intro he
    constructor
    · rw [hsql, he]
      simp
    · rw [Project.get_total_raised, he]
      rfl
  · intro l hl hsum
    rw [hsql, hl, sum_map_natCast l, Project.get_total_raised, hl,
      floatSumList_natCast l hsum]

theorem c9_sql_vs_memory_witness :
    ((Project.mk 100 "" [⟨30, 1, 7⟩]).contributions
        = ([⟨30, 1, 7⟩, ⟨5, 2, 8⟩] : List Contribution).filter (fun c => c.project_id == 7)) ∧
      (((Project.mk 100 "" [⟨30, 1, 7⟩]).contributions = [] →
          sqlTotalRaised [⟨30, 1, 7⟩, ⟨5, 2, 8⟩] 7 = 0 ∧
            (Project.mk 100 "" [⟨30, 1, 7⟩]).get_total_raised = 0) ∧
        ∀ l : List ℕ,
          (Project.mk 100 "" [⟨30, 1, 7⟩]).contributions.map (·.amount)
              = l.map (Nat.cast : ℕ → ℚ) →
          l.sum ≤ 2 ^ 53 →
          sqlTotalRaised [⟨30, 1, 7⟩, ⟨5, 2, 8⟩] 7
            = (Project.mk 100 "" [⟨30, 1, 7⟩]).get_total_raised) :=
  ⟨by simp, c9_sql_vs_memory _ 7 _ (by simp)⟩

/-! ### String and numeral round-trips through the JSON codec -/

theorem string_mk_data (s : String) : String.mk s.data = s := rfl

theorem hexVal_hexChar : ∀ n : ℕ, n < 16 → hexVal (hexChar n) = some n := by decide

theorem parseStrAux_quote (rest : List Char) : parseStrAux ('\"' :: rest) = some ([], rest) := by
  rw [parseStrAux.eq_def]
  simp

theorem parseStrAux_esc (e c2 : Char) (X : List Char) (he : ¬(e = 'u'))
    (hu : unescChar e = some c2) :
    parseStrAux ('\\' :: e :: X)
      = match parseStrAux X with
        | some (s, r) => some (c2 :: s, r)
        | none => none := by
  rw [parseStrAux.eq_def]
  simp [he, hu]

theorem parseStrAux_u (a b c3 d : Char) (X : List Char) (x y z w : ℕ)
    (ha : hexVal a = some x) (hb : hexVal b = some y) (hc : hexVal c3 = some z)
    (hd : hexVal d = some w) :
    parseStrAux ('\\' :: 'u' :: a :: b :: c3 :: d :: X)
      = match parseStrAux X with
        | some (s, r) => some (Char.ofNat (4096 * x + 256 * y + 16 * z + w) :: s, r)
        | none => none := by
  rw [parseStrAux.eq_def]
  simp [ha, hb, hc, hd]

theorem parseStrAux_ord (c : Char) (X : List Char) (h1 : ¬(c = '\"')) (h2 : ¬(c = '\\'))
    (h8 : ¬(c.toNat < 32)) :
    parseStrAux (c :: X)
      = match parseStrAux X with
        | some (s, r) => some (c :: s, r)
        | none => none := by
  rw [parseStrAux.eq_def]
  simp [h1, h2, h8]

theorem parseStrAux_escape : ∀ (s rest : List Char),
    parseStrAux (escapeStr s ++ ('\"' :: rest)) = some (s, rest) := by
  intro s
  induction s with
  | nil =>
    intro rest
    rw [show escapeStr [] = [] from rfl, List.nil_append, parseStrAux_quote]
  | cons c cs ih =>
    intro rest
    rw [escapeStr, List.append_assoc]
    by_cases h1 : c = '\"'
    · subst h1
      rw [show escapeChar '\"' = ['\\', '\"'] from rfl]
    
      rw [show (['\\', '\"'] : List Char) ++ (escapeStr cs ++ '\"' :: rest)
          = '\\' :: '\"' :: (escapeStr cs ++ '\"' :: rest) from rfl]
      rw [parseStrAux_esc '\"' '\"' _ (by decide) rfl, ih]
    · by_cases h2 : c = '\\'
      · subst h2
        rw [show escapeChar '\\' = ['\\', '\\'] from rfl]
        rw [show (['\\', '\\'] : List Char) ++ (escapeStr cs ++ '\"' :: rest)
            = '\\' :: '\\' :: (escapeStr cs ++ '\"' :: rest) from rfl]
        rw [parseStrAux_esc '\\' '\\' _ (by decide) rfl, ih]
      · by_cases h3 : c = '\n'
        · subst h3
          rw [show escapeChar '\n' = ['\\', 'n'] from rfl]
          rw [show (['\\', 'n'] : List Char) ++ (escapeStr cs ++ '\"' :: rest)
              = '\\' :: 'n' :: (escapeStr cs ++ '\"' :: rest) from rfl]
          rw [parseStrAux_esc 'n' '\n' _ (by decide) rfl, ih]
        · by_cases h4 : c = '\t'
          · subst h4
            rw [show escapeChar '\t' = ['\\', 't'] from rfl]
            rw [show (['\\', 't'] : List Char) ++ (escapeStr cs ++ '\"' :: rest)
                = '\\' :: 't' :: (escapeStr cs ++ '\"' :: rest) from rfl]
            rw [parseStrAux_esc 't' '\t' _ (by decide) rfl, ih]
          · by_cases h5 : c = '\r'
            · subst h5
              rw [show escapeChar '\r' = ['\\', 'r'] from rfl]
              rw [show (['\\', 'r'] : List Char) ++ (escapeStr cs ++ '\"' :: rest)
                  = '\\' :: 'r' :: (escapeStr cs ++ '\"' :: rest) from rfl]
              rw [parseStrAux_esc 'r' '\r' _ (by decide) rfl, ih]
            · by_cases h6 : c = Char.ofNat 8
              · subst h6
                rw [show escapeChar (Char.ofNat 8) = ['\\', 'b'] from rfl]
                rw [show (['\\', 'b'] : List Char) ++ (escapeStr cs ++ '\"' :: rest)
                    = '\\' :: 'b' :: (escapeStr cs ++ '\"' :: rest) from rfl]
                rw [parseStrAux_esc 'b' (Char.ofNat 8) _ (by decide) rfl, ih]
              · by_cases h7 : c = Char.ofNat 12
                · subst h7
                  rw [show escapeChar (Char.ofNat 12) = ['\\', 'f'] from rfl]
                  rw [show (['\\', 'f'] : List Char) ++ (escapeStr cs ++ '\"' :: rest)
                      = '\\' :: 'f' :: (escapeStr cs ++ '\"' :: rest) from rfl]
                  rw [parseStrAux_esc 'f' (Char.ofNat 12) _ (by decide) rfl, ih]
                · by_cases h8 : c.toNat < 32
                  · -- a control character, serialized as `\u00XY`
                    rw [show escapeChar c
                        = ['\\', 'u', '0', '0', hexChar (c.toNat / 16), hexChar (c.toNat % 16)] from by
                      rw [escapeChar, if_neg h1, if_neg h2, if_neg h3, if_neg h4, if_neg h5,
                        if_neg h6, if_neg h7, if_pos h8]]
                    rw [show (['\\', 'u', '0', '0', hexChar (c.toNat / 16), hexChar (c.toNat % 16)] : List Char)
                          ++ (escapeStr cs ++ '\"' :: rest)
                        = '\\' :: 'u' :: '0' :: '0' :: hexChar (c.toNat / 16) :: hexChar (c.toNat % 16)
                          :: (escapeStr cs ++ '\"' :: rest) from rfl]
                    rw [parseStrAux_u '0' '0' (hexChar (c.toNat / 16)) (hexChar (c.toNat % 16)) _
                      0 0 (c.toNat / 16) (c.toNat % 16) rfl rfl
                      (hexVal_hexChar _ (by omega)) (hexVal_hexChar _ (by omega)), ih]
                    have harith : 4096 * 0 + 256 * 0 + 16 * (c.toNat / 16) + c.toNat % 16
                        = c.toNat := by omega
                    rw [harith, Char.ofNat_toNat]
                  · -- an ordinary character, serialized literally
                    rw [show escapeChar c = [c] from by
                      rw [escapeChar, if_neg h1, if_neg h2, if_neg h3, if_neg h4, if_neg h5,
                        if_neg h6, if_neg h7, if_neg h8]]
                    rw [show ([c] : List Char) ++ (escapeStr cs ++ '\"' :: rest)
                        = c :: (escapeStr cs ++ '\"' :: rest) from rfl]
                    rw [parseStrAux_ord c _ h1 h2 h8, ih]

theorem digitChar_isDigit : ∀ m : ℕ, m < 10 → isDigit (Nat.digitChar m) = true := by decide

theorem digitChar_val : ∀ m : ℕ, m < 10 → (Nat.digitChar m).toNat - 48 = m := by decide

theorem natCharsF_spec : ∀ (f n : ℕ), n ≤ f →
    (∃ d tl, natCharsF (f + 1) n = d :: tl ∧ isDigit d = true) ∧
      (∀ c ∈ natCharsF (f + 1) n, isDigit c = true) ∧
      ∀ acc : ℕ, (natCharsF (f + 1) n).foldl (fun a c => a * 10 + (c.toNat - 48)) acc
        = acc * 10 ^ (natCharsF (f + 1) n).length + n := by
  intro f
  induction f with
  | zero =>
    intro n hn
    have h0 : n = 0 := by omega
    subst h0
    refine ⟨⟨'0', [], rfl, rfl⟩, by decide, ?_⟩
    intro acc
    simp [natCharsF, Nat.digitChar]
  | succ f ih =>
    intro n hn
    by_cases hsmall : n < 10
    · have he : natCharsF (f + 1 + 1) n = [Nat.digitChar n] := by
        rw [natCharsF.eq_def]
        simp [hsmall]
      refine ⟨⟨Nat.digitChar n, [], he, digitChar_isDigit n hsmall⟩, ?_, ?_⟩
      · intro c hc
        rw [he] at hc
        simp at hc
        subst hc
        exact digitChar_isDigit n hsmall
      · intro acc
        rw [he]
        simp [digitChar_val n hsmall]
    · have he : natCharsF (f + 1 + 1) n
          = natCharsF (f + 1) (n / 10) ++ [Nat.digitChar (n % 10)] := by
        rw [natCharsF.eq_def]
        simp [hsmall]
      have hrec : n / 10 ≤ f := by omega
      obtain ⟨⟨d, tl, hd, hdig⟩, hall, hval⟩ := ih (n / 10) hrec
      refine ⟨⟨d, tl ++ [Nat.digitChar (n % 10)], by rw [he, hd]; rfl, hdig⟩, ?_, ?_⟩
      · intro c hc
        rw [he] at hc
        rcases List.mem_append.mp hc with h | h
        · exact hall c h
        · simp at h
          subst h
          exact digitChar_isDigit _ (by omega)
      · intro acc
        rw [he, List.foldl_append, hval acc, List.length_append]
        simp only [List.foldl_cons, List.foldl_nil, List.length_cons, List.length_nil]
        rw [digitChar_val _ (by omega)]
        have hp : (10 : ℕ) ^ ((natCharsF (f + 1) (n / 10)).length + (0 + 1))
            = 10 ^ (natCharsF (f + 1) (n / 10)).length * 10 := by
          rw [pow_succ]
        rw [hp]
        have hdm : n / 10 * 10 + n % 10 = n := by omega
        ring_nf
        omega

theorem natChars_spec (n : ℕ) :
    (∃ d tl, natChars n = d :: tl ∧ isDigit d = true) ∧
      (∀ c ∈ natChars n, isDigit c = true) ∧
      ∀ acc : ℕ, (natChars n).foldl (fun a c => a * 10 + (c.toNat - 48)) acc
        = acc * 10 ^ (natChars n).length + n :=
  natCharsF_spec n n le_rfl

theorem parseNatAux_all_digits : ∀ (ds rest : List Char) (acc : ℕ),
    (∀ c ∈ ds, isDigit c = true) →
    parseNatAux acc (ds ++ rest)
      = parseNatAux (ds.foldl (fun a c => a * 10 + (c.toNat - 48)) acc) rest := by
  intro ds
  induction ds with
  | nil =>
    intro rest acc _
    simp
  | cons c t ih =>
    intro rest acc hall
    have hc : isDigit c = true := hall c (List.mem_cons_self _ _)
    rw [List.cons_append, parseNatAux.eq_def]
    simp only [hc, if_true, List.foldl_cons]
    exact ih rest _ (fun x hx => hall x (List.mem_cons_of_mem _ hx))

theorem parseNatAux_stop : ∀ (rest : List Char) (acc : ℕ), headNotDigit rest →
    parseNatAux acc rest = (acc, rest) := by
  intro rest acc h
  cases rest with
  | nil => rfl
  | cons c t =>
    rw [headNotDigit] at h
    rw [parseNatAux.eq_def]
    simp [h]

theorem parseNatAux_natChars (n : ℕ) (rest : List Char) (h : headNotDigit rest) :
    parseNatAux 0 (natChars n ++ rest) = (n, rest) := by
  obtain ⟨_, hall, hval⟩ := natChars_spec n
  rw [parseNatAux_all_digits _ _ _ hall, hval 0, parseNatAux_stop rest _ h]
  simp

theorem parseNum_intChars (n : ℤ) (rest : List Char) (h : headNotDigit rest) :
    parseNum (intChars n ++ rest) = some (.num n, rest) := by
  by_cases hn : n < 0
  · have he : intChars n = '-' :: natChars n.natAbs := by
      rw [intChars, if_pos hn]
    obtain ⟨d, tl, hd, hdig⟩ := (natChars_spec n.natAbs).1
    have hin : intChars n ++ rest = '-' :: d :: (tl ++ rest) := by
      rw [he, hd]
      rfl
    have hp : parseNatAux 0 (d :: (tl ++ rest)) = (n.natAbs, rest) := by
      rw [← List.cons_append, ← hd]
      exact parseNatAux_natChars n.natAbs rest h
    rw [hin, parseNum.eq_def]
    simp only [reduceIte, hdig, hp]
    simp only [Option.some.injEq, Prod.mk.injEq, Json.num.injEq, and_true]
    omega
  · push_neg at hn
    have he : intChars n = natChars n.toNat := by
      rw [intChars, if_neg (not_lt.mpr hn)]
    obtain ⟨d, tl, hd, hdig⟩ := (natChars_spec n.toNat).1
    have hne : ¬(d = '-') := by
      intro hx
      subst hx
      exact absurd hdig (by decide)
    have hin : intChars n ++ rest = d :: (tl ++ rest) := by
      rw [he, hd]
      rfl
    have hp : parseNatAux 0 (d :: (tl ++ rest)) = (n.toNat, rest) := by
      rw [← List.cons_append, ← hd]
      exact parseNatAux_natChars n.toNat rest h
    rw [hin, parseNum.eq_def]
    simp only [hne, if_false, hdig, if_true, hp]
    simp only [Option.some.injEq, Prod.mk.injEq, Json.num.injEq, and_true]
    omega

/-! ### One-step unfolding of the reader -/

theorem skipWs_ws (c : Char) (cs : List Char) (h : isJsonWs c = true) :
    skipWs (c :: cs) = skipWs cs := by
  rw [skipWs.eq_def]
  simp [h]

theorem skipWs_nonws (c : Char) (cs : List Char) (h : isJsonWs c = false) :
    skipWs (c :: cs) = c :: cs := by
  rw [skipWs.eq_def]
  simp [h]

theorem parseVal_skipWs (f : ℕ) (X Y : List Char) (h : skipWs X = skipWs Y) :
    parseVal (f + 1) X = parseVal (f + 1) Y := by
  rw [parseVal.eq_def]
  conv_rhs => rw [parseVal.eq_def]
  simp only [h]

theorem parseVal_space (f : ℕ) (X : List Char) :
    parseVal (f + 1) (' ' :: X) = parseVal (f + 1) X :=
  parseVal_skipWs f _ _ (skipWs_ws ' ' X rfl)

theorem pv_null (f : ℕ) (rest : List Char) :
    parseVal (f + 1) ('n' :: 'u' :: 'l' :: 'l' :: rest) = some (.null, rest) := by
  simp only [parseVal]
  rw [skipWs_nonws _ _ (by decide)]
  simp [dropLit]

theorem pv_true (f : ℕ) (rest : List Char) :
    parseVal (f + 1) ('t' :: 'r' :: 'u' :: 'e' :: rest) = some (.boolean true, rest) := by
  simp only [parseVal]
  rw [skipWs_nonws _ _ (by decide)]
  simp [dropLit]

theorem pv_false (f : ℕ) (rest : List Char) :
    parseVal (f + 1) ('f' :: 'a' :: 'l' :: 's' :: 'e' :: rest) = some (.boolean false, rest) := by
  simp only [parseVal]
  rw [skipWs_nonws _ _ (by decide)]
  simp [dropLit]

theorem pv_str (f : ℕ) (X : List Char) :
    parseVal (f + 1) ('\"' :: X)
      = match parseStrAux X with
        | some (s, r) => some (.str (String.mk s), r)
        | none => none := by
  simp only [parseVal, skipWs_nonws '\"' X (by decide)]
  simp +decide

theorem pv_open_bracket (f : ℕ) (T : List Char) (c2 : Char) (rest2 : List Char)
    (hT : skipWs T = c2 :: rest2) (hc2 : ¬(c2 = ']')) :
    parseVal (f + 1) ('[' :: T)
      = match parseVal f (c2 :: rest2) with
        | some (j, r) =>
          match parseArrTail f r with
          | some (a, r2) => some (.arr (.cons j a), r2)
          | none => none
        | none => none := by
  simp only [parseVal]
  rw [skipWs_nonws '[' T (by decide)]
  simp only [hT, hc2, if_false]
  rw [if_neg (by decide), if_neg (by decide), if_neg (by decide), if_neg (by decide)]
  simp only [if_true, eq_self_iff_true]

theorem pv_empty_arr (f : ℕ) (rest : List Char) :
    parseVal (f + 1) ('[' :: (']' :: rest)) = some (.arr .nil, rest) := by
  simp only [parseVal, skipWs_nonws '[' (']' :: rest) (by decide),
    skipWs_nonws ']' rest (by decide)]
  simp +decide

theorem pv_open_brace (f : ℕ) (T : List Char) (c2 : Char) (rest2 : List Char)
    (hT : skipWs T = c2 :: rest2) (hc2 : ¬(c2 = '}')) :
    parseVal (f + 1) ('{' :: T)
      = match parseKV f (c2 :: rest2) with
        | some (k, v, r) =>
          match parseObjTail f r with
          | some (o, r2) => some (.obj (.cons k v o), r2)
          | none => none
        | none => none := by
  simp only [parseVal]
  rw [skipWs_nonws '{' T (by decide)]
  simp only [hT, hc2, if_false]
  rw [if_neg (by decide), if_neg (by decide), if_neg (by decide), if_neg (by decide),
    if_neg (by decide)]
  simp only [if_true, eq_self_iff_true]

theorem pv_empty_obj (f : ℕ) (rest : List Char) :
    parseVal (f + 1) ('{' :: ('}' :: rest)) = some (.obj .nil, rest) := by
  simp only [parseVal, skipWs_nonws '{' ('}' :: rest) (by decide),
    skipWs_nonws '}' rest (by decide)]
  simp +decide

theorem pv_num (f : ℕ) (c : Char) (X : List Char) (h1 : ¬(c = 'n')) (h2 : ¬(c = 't'))
    (h3 : ¬(c = 'f')) (h4 : ¬(c = '\"')) (h5 : ¬(c = '[')) (h6 : ¬(c = '{'))
    (hws : isJsonWs c = false) :
    parseVal (f + 1) (c :: X) = parseNum (c :: X) := by
  simp only [parseVal, skipWs_nonws c X hws]
  simp only [h1, h2, h3, h4, h5, h6, if_false]

theorem pat_close (f : ℕ) (rest : List Char) :
    parseArrTail (f + 1) (']' :: rest) = some (.nil, rest) := by
  simp only [parseArrTail, skipWs_nonws ']' rest (by decide)]
  simp +decide

theorem pat_comma (f : ℕ) (X : List Char) :
    parseArrTail (f + 1) (',' :: X)
      = match parseVal f X with
        | some (j, r) =>
          match parseArrTail f r with
          | some (a, r2) => some (.cons j a, r2)
          | none => none
        | none => none := by
  simp only [parseArrTail, skipWs_nonws ',' X (by decide)]
  simp +decide

theorem pot_close (f : ℕ) (rest : List Char) :
    parseObjTail (f + 1) ('}' :: rest) = some (.nil, rest) := by
  simp only [parseObjTail, skipWs_nonws '}' rest (by decide)]
  simp +decide

theorem pot_comma (f : ℕ) (X : List Char) :
    parseObjTail (f + 1) (',' :: X)
      = match parseKV f X with
        | some (k, v, r) =>
          match parseObjTail f r with
          | some (o, r2) => some (.cons k v o, r2)
          | none => none
        | none => none := by
  simp only [parseObjTail, skipWs_nonws ',' X (by decide)]
  simp +decide

theorem pkv_step (f : ℕ) (k : String) (Y : List Char) :
    parseKV (f + 1) ('\"' :: (escapeStr k.data ++ ('\"' :: ':' :: ' ' :: Y)))
      = match parseVal f (' ' :: Y) with
        | some (v, r3) => some (k, v, r3)
        | none => none := by
  simp only [parseKV, skipWs_nonws '\"' (escapeStr k.data ++ ('\"' :: ':' :: ' ' :: Y)) (by decide),
    parseStrAux_escape k.data (':' :: ' ' :: Y), skipWs_nonws ':' (' ' :: Y) (by decide),
    string_mk_data]
  simp +decide

/-! ### Heads of serialized values -/

theorem isDigit_facts (c : Char) (h : isDigit c = true) :
    ¬(c = 'n') ∧ ¬(c = 't') ∧ ¬(c = 'f') ∧ ¬(c = '\"') ∧ ¬(c = '[') ∧ ¬(c = '{')
      ∧ ¬(c = '-') ∧ ¬(c = ']') ∧ ¬(c = '}') ∧ ¬(c = ',') ∧ isJsonWs c = false := by
  rw [isDigit, Bool.and_eq_true, decide_eq_true_eq, decide_eq_true_eq] at h
  obtain ⟨hl, hr⟩ := h
  refine ⟨?_, ?_, ?_, ?_, ?_, ?_, ?_, ?_, ?_, ?_, ?_⟩
  · intro hx; subst hx; exact absurd hr (by decide)
  · intro hx; subst hx; exact absurd hr (by decide)
  · intro hx; subst hx; exact absurd hr (by decide)
  · intro hx; subst hx; exact absurd hl (by decide)
  · intro hx; subst hx; exact absurd hr (by decide)
  · intro hx; subst hx; exact absurd hr (by decide)
  · intro hx; subst hx; exact absurd hl (by decide)
  · intro hx; subst hx; exact absurd hr (by decide)
  · intro hx; subst hx; exact absurd hr (by decide)
  · intro hx; subst hx; exact absurd hl (by decide)
  · rw [isJsonWs]
    have hsp : ¬(c = ' ') := by intro hx; subst hx; exact absurd hl (by decide)
    have hta : ¬(c = '\t') := by intro hx; subst hx; exact absurd hl (by decide)
    have hnl : ¬(c = '\n') := by intro hx; subst hx; exact absurd hl (by decide)
    have hcr : ¬(c = '\r') := by intro hx; subst hx; exact absurd hl (by decide)
    simp [hsp, hta, hnl, hcr]

theorem dumpsJson_null : dumpsJson .null = ['n', 'u', 'l', 'l'] := rfl

theorem dumpsJson_true : dumpsJson (.boolean true) = ['t', 'r', 'u', 'e'] := rfl

theorem dumpsJson_false : dumpsJson (.boolean false) = ['f', 'a', 'l', 's', 'e'] := rfl

theorem dumpsJson_num (n : ℤ) : dumpsJson (.num n) = intChars n := by
  rw [dumpsJson.eq_def]

theorem dumpsJson_str (s : String) : dumpsJson (.str s) = '\"' :: (escapeStr s.data ++ ['\"']) := by
  rw [dumpsJson.eq_def]

theorem dumpsJson_arr (a : JArr) : dumpsJson (.arr a) = '[' :: (dumpsArr a ++ [']']) := by
  rw [dumpsJson.eq_def]

theorem dumpsJson_obj (o : JObj) : dumpsJson (.obj o) = '{' :: (dumpsObj o ++ ['}']) := by
  rw [dumpsJson.eq_def]

theorem dumpsArr_nil : dumpsArr .nil = [] := by
  rw [dumpsArr.eq_def]

theorem dumpsArr_cons (j : Json) (tl : JArr) :
    dumpsArr (.cons j tl) = dumpsJson j ++ dumpsArrTail tl := by
  rw [dumpsArr.eq_def]

theorem dumpsArrTail_nil : dumpsArrTail .nil = [] := by
  rw [dumpsArrTail.eq_def]

theorem dumpsArrTail_cons (j : Json) (tl : JArr) :
    dumpsArrTail (.cons j tl) = ',' :: ' ' :: (dumpsJson j ++ dumpsArrTail tl) := by
  rw [dumpsArrTail.eq_def]

theorem dumpsObj_nil : dumpsObj .nil = [] := by
  rw [dumpsObj.eq_def]

theorem dumpsObj_cons (k : String) (v : Json) (tl : JObj) :
    dumpsObj (.cons k v tl)
      = '\"' :: (escapeStr k.data ++ ('\"' :: ':' :: ' ' :: (dumpsJson v ++ dumpsObjTail tl))) := by
  rw [dumpsObj.eq_def]

theorem dumpsObjTail_nil : dumpsObjTail .nil = [] := by
  rw [dumpsObjTail.eq_def]

theorem dumpsObjTail_cons (k : String) (v : Json) (tl : JObj) :
    dumpsObjTail (.cons k v tl)
      = ',' :: ' ' :: ('\"' :: (escapeStr k.data
          ++ ('\"' :: ':' :: ' ' :: (dumpsJson v ++ dumpsObjTail tl)))) := by
  rw [dumpsObjTail.eq_def]

theorem dumpsJson_head (j : Json) :
    ∃ c tl, dumpsJson j = c :: tl ∧ isJsonWs c = false ∧ ¬(c = ']') ∧ ¬(c = '}') := by
  cases j with
  | null => exact ⟨'n', _, dumpsJson_null, by decide, by decide, by decide⟩
  | boolean b =>
    cases b with
    | true => exact ⟨'t', _, dumpsJson_true, by decide, by decide, by decide⟩
    | false => exact ⟨'f', _, dumpsJson_false, by decide, by decide, by decide⟩
  | num n =>
    rw [dumpsJson_num]
    by_cases hn : n < 0
    · refine ⟨'-', natChars n.natAbs, ?_, by decide, by decide, by decide⟩
      rw [intChars, if_pos hn]
    · obtain ⟨d, tl, hd, hdig⟩ := (natChars_spec n.toNat).1
      obtain ⟨_, _, _, _, _, _, _, hr1, hr2, _, hws⟩ := isDigit_facts d hdig
      refine ⟨d, tl, ?_, hws, hr1, hr2⟩
      rw [intChars, if_neg hn, hd]
  | str s => exact ⟨'\"', _, dumpsJson_str s, by decide, by decide, by decide⟩
  | arr a => exact ⟨'[', _, dumpsJson_arr a, by decide, by decide, by decide⟩
  | obj o => exact ⟨'{', _, dumpsJson_obj o, by decide, by decide, by decide⟩

theorem headNotDigit_arrTail (a : JArr) (rest : List Char) :
    headNotDigit (dumpsArrTail a ++ (']' :: rest)) := by
  cases a with
  | nil =>
    rw [dumpsArrTail_nil, List.nil_append]
    rw [headNotDigit]
    decide
  | cons j tl =>
    rw [dumpsArrTail_cons, List.cons_append]
    rw [headNotDigit]
    decide

theorem headNotDigit_objTail (o : JObj) (rest : List Char) :
    headNotDigit (dumpsObjTail o ++ ('}' :: rest)) := by
  cases o with
  | nil =>
    rw [dumpsObjTail_nil, List.nil_append]
    rw [headNotDigit]
    decide
  | cons k v tl =>
    rw [dumpsObjTail_cons, List.cons_append]
    rw [headNotDigit]
    decide

theorem needV_null : needV .null = 1 := by rw [needV.eq_def]
theorem needV_boolean (b : Bool) : needV (.boolean b) = 1 := by rw [needV.eq_def]
theorem needV_num (n : ℤ) : needV (.num n) = 1 := by rw [needV.eq_def]
theorem needV_str (s : String) : needV (.str s) = 1 := by rw [needV.eq_def]
theorem needV_arr_nil : needV (.arr .nil) = 1 := by rw [needV.eq_def]
theorem needV_arr_cons (j : Json) (a : JArr) :
    needV (.arr (.cons j a)) = 1 + max (needV j) (needA a) := by rw [needV.eq_def]
theorem needV_obj_nil : needV (.obj .nil) = 1 := by rw [needV.eq_def]
theorem needV_obj_cons (k : String) (v : Json) (o : JObj) :
    needV (.obj (.cons k v o)) = 1 + max (needV v + 1) (needO o) := by rw [needV.eq_def]
theorem needA_nil : needA .nil = 1 := by rw [needA.eq_def]
theorem needA_cons (j : Json) (a : JArr) :
    needA (.cons j a) = 1 + max (needV j) (needA a) := by rw [needA.eq_def]
theorem needO_nil : needO .nil = 1 := by rw [needO.eq_def]
theorem needO_cons (k : String) (v : Json) (o : JObj) :
    needO (.cons k v o) = 1 + max (needV v + 1) (needO o) := by rw [needO.eq_def]

theorem needV_pos (j : Json) : 1 ≤ needV j := by
  cases j with
  | null => rw [needV_null]
  | boolean b => rw [needV_boolean]
  | num n => rw [needV_num]
  | str s => rw [needV_str]
  | arr a =>
    cases a with
    | nil => rw [needV_arr_nil]
    | cons j a => rw [needV_arr_cons]; omega
  | obj o =>
    cases o with
    | nil => rw [needV_obj_nil]
    | cons k v o => rw [needV_obj_cons]; omega

theorem needA_pos (a : JArr) : 1 ≤ needA a := by
  cases a with
  | nil => rw [needA_nil]
  | cons j a => rw [needA_cons]; omega

theorem needO_pos (o : JObj) : 1 ≤ needO o := by
  cases o with
  | nil => rw [needO_nil]
  | cons k v o => rw [needO_cons]; omega

theorem parseKV_skipWs (f : ℕ) (X Y : List Char) (h : skipWs X = skipWs Y) :
    parseKV (f + 1) X = parseKV (f + 1) Y := by
  rw [parseKV.eq_def]
  conv_rhs => rw [parseKV.eq_def]
  simp only [h]

theorem parseKV_space (f : ℕ) (X : List Char) :
    parseKV (f + 1) (' ' :: X) = parseKV (f + 1) X :=
  parseKV_skipWs f _ _ (skipWs_ws ' ' X rfl)

/-! ### The reader inverts the serializer -/

theorem parse_dumps (f : ℕ) :
    (∀ (j : Json) (rest : List Char), needV j ≤ f → headNotDigit rest →
      parseVal f (dumpsJson j ++ rest) = some (j, rest)) ∧
    (∀ (a : JArr) (rest : List Char), needA a ≤ f →
      parseArrTail f (dumpsArrTail a ++ (']' :: rest)) = some (a, rest)) ∧
    (∀ (o : JObj) (rest : List Char), needO o ≤ f →
      parseObjTail f (dumpsObjTail o ++ ('}' :: rest)) = some (o, rest)) ∧
    (∀ (k : String) (v : Json) (rest : List Char), needV v + 1 ≤ f → headNotDigit rest →
      parseKV f ('\"' :: (escapeStr k.data ++ ('\"' :: ':' :: ' ' :: (dumpsJson v ++ rest))))
        = some (k, v, rest)) := by
  induction f with
  | zero =>
    refine ⟨?_, ?_, ?_, ?_⟩
    · intro j rest h _
      have := needV_pos j
      omega
    · intro a rest h
      have := needA_pos a
      omega
    · intro o rest h
      have := needO_pos o
      omega
    · intro k v rest h _
      omega
  | succ f ih =>
    obtain ⟨ihV, ihA, ihO, ihK⟩ := ih
    have hV : ∀ (j : Json) (rest : List Char), needV j ≤ f + 1 → headNotDigit rest →
        parseVal (f + 1) (dumpsJson j ++ rest) = some (j, rest) := by
      intro j rest hle hrest
      cases j with
      | null =>
        rw [dumpsJson_null,
          show (['n', 'u', 'l', 'l'] : List Char) ++ rest = 'n' :: 'u' :: 'l' :: 'l' :: rest
            from rfl]
        exact pv_null f rest
      | boolean b =>
        cases b with
        | true =>
          rw [dumpsJson_true,
            show (['t', 'r', 'u', 'e'] : List Char) ++ rest = 't' :: 'r' :: 'u' :: 'e' :: rest
              from rfl]
          exact pv_true f rest
        | false =>
          rw [dumpsJson_false,
            show (['f', 'a', 'l', 's', 'e'] : List Char) ++ rest
                = 'f' :: 'a' :: 'l' :: 's' :: 'e' :: rest from rfl]
          exact pv_false f rest
      | num n =>
        rw [dumpsJson_num]
        by_cases hn : n < 0
        · have he : intChars n = '-' :: natChars n.natAbs := by
            rw [intChars, if_pos hn]
          have hin : intChars n ++ rest = '-' :: (natChars n.natAbs ++ rest) := by
            rw [he]
            rfl
          rw [hin, pv_num f '-' _ (by decide) (by decide) (by decide) (by decide) (by decide)
            (by decide) (by decide), ← hin]
          exact parseNum_intChars n rest hrest
        · push_neg at hn
          have he : intChars n = natChars n.toNat := by
            rw [intChars, if_neg (not_lt.mpr hn)]
          obtain ⟨d, tl, hd, hdig⟩ := (natChars_spec n.toNat).1
          obtain ⟨f1, f2, f3, f4, f5, f6, _, _, _, _, fws⟩ := isDigit_facts d hdig
          have hin : intChars n ++ rest = d :: (tl ++ rest) := by
            rw [he, hd]
            rfl
          rw [hin, pv_num f d _ f1 f2 f3 f4 f5 f6 fws, ← hin]
          exact parseNum_intChars n rest hrest
      | str s =>
        rw [dumpsJson_str]
        have hin : ('\"' :: (escapeStr s.data ++ ['\"'])) ++ rest
            = '\"' :: (escapeStr s.data ++ ('\"' :: rest)) := by
          simp
        rw [hin, pv_str f _, parseStrAux_escape s.data rest]
      | arr a =>
        cases a with
        | nil =>
          rw [dumpsJson_arr, dumpsArr_nil,
            show ('[' :: (([] : List Char) ++ [']'])) ++ rest = '[' :: (']' :: rest) from rfl]
          exact pv_empty_arr f rest
        | cons j a2 =>
          rw [dumpsJson_arr, dumpsArr_cons]
          have hin : ('[' :: ((dumpsJson j ++ dumpsArrTail a2) ++ [']'])) ++ rest
              = '[' :: (dumpsJson j ++ (dumpsArrTail a2 ++ (']' :: rest))) := by
            simp
          rw [hin]
          obtain ⟨c, tl, hc, hws, hnb, _⟩ := dumpsJson_head j
          have hT : skipWs (dumpsJson j ++ (dumpsArrTail a2 ++ (']' :: rest)))
              = c :: (tl ++ (dumpsArrTail a2 ++ (']' :: rest))) := by
            rw [hc, List.cons_append]
            exact skipWs_nonws c _ hws
          rw [pv_open_bracket f _ c _ hT hnb]
          rw [needV_arr_cons] at hle
          have hj : parseVal f (c :: (tl ++ (dumpsArrTail a2 ++ (']' :: rest))))
              = some (j, dumpsArrTail a2 ++ (']' :: rest)) := by
            rw [← List.cons_append, ← hc]
            exact ihV j _ (by omega) (headNotDigit_arrTail a2 rest)
          rw [hj]
          show (match parseArrTail f (dumpsArrTail a2 ++ (']' :: rest)) with
            | some (a3, r2) => some (Json.arr (JArr.cons j a3), r2)
            | none => none) = some (.arr (.cons j a2), rest)
          rw [ihA a2 rest (by omega)]
      | obj o =>
        cases o with
        | nil =>
          rw [dumpsJson_obj, dumpsObj_nil,
            show ('{' :: (([] : List Char) ++ ['}'])) ++ rest = '{' :: ('}' :: rest) from rfl]
          exact pv_empty_obj f rest
        | cons k v o2 =>
          rw [dumpsJson_obj, dumpsObj_cons]
          have hin : ('{' :: (('\"' :: (escapeStr k.data
                ++ ('\"' :: ':' :: ' ' :: (dumpsJson v ++ dumpsObjTail o2)))) ++ ['}'])) ++ rest
              = '{' :: ('\"' :: (escapeStr k.data
                ++ ('\"' :: ':' :: ' ' :: (dumpsJson v ++ (dumpsObjTail o2 ++ ('}' :: rest)))))) := by
            simp
          rw [hin]
          have hT : skipWs ('\"' :: (escapeStr k.data
                ++ ('\"' :: ':' :: ' ' :: (dumpsJson v ++ (dumpsObjTail o2 ++ ('}' :: rest))))))
              = '\"' :: (escapeStr k.data
                ++ ('\"' :: ':' :: ' ' :: (dumpsJson v ++ (dumpsObjTail o2 ++ ('}' :: rest))))) :=
            skipWs_nonws _ _ (by decide)
          rw [pv_open_brace f _ _ _ hT (by decide)]
          rw [needV_obj_cons] at hle
          have hkv : parseKV f ('\"' :: (escapeStr k.data
                ++ ('\"' :: ':' :: ' ' :: (dumpsJson v ++ (dumpsObjTail o2 ++ ('}' :: rest))))))
              = some (k, v, dumpsObjTail o2 ++ ('}' :: rest)) :=
            ihK k v _ (by omega) (headNotDigit_objTail o2 rest)
          rw [hkv]
          show (match parseObjTail f (dumpsObjTail o2 ++ ('}' :: rest)) with
            | some (o3, r2) => some (Json.obj (JObj.cons k v o3), r2)
            | none => none) = some (.obj (.cons k v o2), rest)
          rw [ihO o2 rest (by omega)]
    refine ⟨hV, ?_, ?_, ?_⟩
    · intro a rest hle
      cases a with
      | nil =>
        rw [dumpsArrTail_nil, List.nil_append]
        exact pat_close f rest
      | cons j a2 =>
        rw [dumpsArrTail_cons]
        have hin : (',' :: ' ' :: (dumpsJson j ++ dumpsArrTail a2)) ++ (']' :: rest)
            = ',' :: (' ' :: (dumpsJson j ++ (dumpsArrTail a2 ++ (']' :: rest)))) := by
          simp
        rw [hin, pat_comma f _]
        rw [needA_cons] at hle
        have hf1 : 1 ≤ f := by
          have := needV_pos j
          omega
        obtain ⟨g, rfl⟩ : ∃ g, f = g + 1 := ⟨f - 1, by omega⟩
        rw [parseVal_space g _]
        rw [ihV j _ (by omega) (headNotDigit_arrTail a2 rest)]
        show (match parseArrTail (g + 1) (dumpsArrTail a2 ++ (']' :: rest)) with
          | some (a3, r2) => some (JArr.cons j a3, r2)
          | none => none) = some (.cons j a2, rest)
        rw [ihA a2 rest (by omega)]
    · intro o rest hle
      cases o with
      | nil =>
        rw [dumpsObjTail_nil, List.nil_append]
        exact pot_close f rest
      | cons k v o2 =>
        rw [dumpsObjTail_cons]
        have hin : (',' :: ' ' :: ('\"' :: (escapeStr k.data
              ++ ('\"' :: ':' :: ' ' :: (dumpsJson v ++ dumpsObjTail o2))))) ++ ('}' :: rest)
            = ',' :: (' ' :: ('\"' :: (escapeStr k.data
              ++ ('\"' :: ':' :: ' ' :: (dumpsJson v ++ (dumpsObjTail o2 ++ ('}' :: rest))))))) := by
          simp
        rw [hin, pot_comma f _]
        rw [needO_cons] at hle
        have hf1 : 1 ≤ f := by
          have := needV_pos v
          omega
        obtain ⟨g, rfl⟩ : ∃ g, f = g + 1 := ⟨f - 1, by omega⟩
        rw [parseKV_space g _]
        rw [ihK k v _ (by omega) (headNotDigit_objTail o2 rest)]
        show (match parseObjTail (g + 1) (dumpsObjTail o2 ++ ('}' :: rest)) with
          | some (o3, r2) => some (JObj.cons k v o3, r2)
          | none => none) = some (.cons k v o2, rest)
        rw [ihO o2 rest (by omega)]
    · intro k v rest hle hrest
      rw [pkv_step f k _]
      have hf1 : 1 ≤ f := by
        have := needV_pos v
        omega
      obtain ⟨g, rfl⟩ : ∃ g, f = g + 1 := ⟨f - 1, by omega⟩
      rw [parseVal_space g _]
      rw [ihV v rest (by omega) hrest]

mutual

theorem needV_le_dumps (j : Json) : needV j ≤ (dumpsJson j).length + 1 := by
  cases j with
  | null => rw [needV_null]; omega
  | boolean b => rw [needV_boolean]; omega
  | num n => rw [needV_num]; omega
  | str s => rw [needV_str]; omega
  | arr a =>
    cases a with
    | nil => rw [needV_arr_nil]; omega
    | cons j2 a2 =>
      rw [needV_arr_cons, dumpsJson_arr, dumpsArr_cons]
      have h1 := needV_le_dumps j2
      have h2 := needA_le_dumps a2
      simp only [List.length_cons, List.length_append]
      omega
  | obj o =>
    cases o with
    | nil => rw [needV_obj_nil]; omega
    | cons k v o2 =>
      rw [needV_obj_cons, dumpsJson_obj, dumpsObj_cons]
      have h1 := needV_le_dumps v
      have h2 := needO_le_dumps o2
      simp only [List.length_cons, List.length_append]
      omega

theorem needA_le_dumps (a : JArr) : needA a ≤ (dumpsArrTail a).length + 1 := by
  cases a with
  | nil => rw [needA_nil]; omega
  | cons j a2 =>
    rw [needA_cons, dumpsArrTail_cons]
    have h1 := needV_le_dumps j
    have h2 := needA_le_dumps a2
    simp only [List.length_cons, List.length_append]
    omega

theorem needO_le_dumps (o : JObj) : needO o ≤ (dumpsObjTail o).length + 1 := by
  cases o with
  | nil => rw [needO_nil]; omega
  | cons k v o2 =>
    rw [needO_cons, dumpsObjTail_cons]
    have h1 := needV_le_dumps v
    have h2 := needO_le_dumps o2
    simp only [List.length_cons, List.length_append]
    omega

end

/-- The modelled `json.loads` inverts the modelled `json.dumps`. -/
theorem parseJson_dumps (j : Json) : parseJson (dumpsStr j) = some j := by
  rw [parseJson, dumpsStr]
  rw [show (String.mk (dumpsJson j)).data = dumpsJson j from rfl]
  have hfuel : needV j ≤ (dumpsJson j).length + 1 := needV_le_dumps j
  have h := (parse_dumps ((dumpsJson j).length + 1)).1 j [] hfuel (by trivial)
  rw [List.append_nil] at h
  rw [h]
  simp [skipWs]

/-! ### The comment log -/

theorem JArr_append_nil : ∀ a : JArr, a.append .nil = a
  | .nil => rfl
  | .cons j tl => by rw [JArr.append, JArr_append_nil tl]

theorem JArr_push_append : ∀ (a : JArr) (x : Json) (b : JArr),
    (a.push x).append b = a.append (.cons x b)
  | .nil, x, b => rfl
  | .cons j tl, x, b => by
    rw [show (JArr.cons j tl).push x = .cons j (tl.push x) from rfl]
    rw [JArr.append, JArr.append, JArr_push_append tl x b]

theorem foldl_push_ofList (l : List Json) : ∀ a : JArr,
    l.foldl (fun acc j => acc.push j) a = a.append (JArr.ofList l) := by
  induction l with
  | nil =>
    intro a
    rw [List.foldl_nil, show JArr.ofList [] = .nil from rfl, JArr_append_nil]
  | cons x t ih =>
    intro a
    rw [List.foldl_cons, ih (a.push x), JArr_push_append,
      show JArr.ofList (x :: t) = .cons x (JArr.ofList t) from rfl]

theorem JArr_length_ofList (l : List Json) : (JArr.ofList l).length = l.length := by
  induction l with
  | nil => rfl
  | cons x t ih =>
    rw [show JArr.ofList (x :: t) = .cons x (JArr.ofList t) from rfl, JArr.length, ih,
      List.length_cons]

theorem dumpsStr_arr_ne_empty (a : JArr) : dumpsStr (.arr a) ≠ "" := by
  rw [dumpsStr, dumpsJson_arr]
  intro h
  have h2 := congrArg String.data h
  simp at h2

/-- A valid comment submission against a project whose stored log reads as the
array `A` appends exactly one entry and re-serializes. -/
theorem addCommentRoute_valid (p : Project) (u t ts : String) (A : JArr)
    (hA : get_comments_list p.comments = .arr A) (hv : commentFormOk t = true) :
    addCommentRoute p u t ts
      = ({ p with comments := dumpsStr (.arr (A.push (commentObj u t ts))) }, true) := by
  rw [addCommentRoute, if_pos hv, Project.add_comment, addCommentBlob, hA]

theorem get_comments_list_dumps_arr (a : JArr) :
    get_comments_list (dumpsStr (.arr a)) = .arr a := by
  rw [get_comments_list, if_neg (dumpsStr_arr_ne_empty a), parseJson_dumps]

theorem comment_fold (entries : List (String × String × String)) :
    ∀ (p : Project) (A : JArr),
      (∀ e ∈ entries, commentFormOk e.2.1 = true) →
      get_comments_list p.comments = .arr A →
      get_comments_list
          ((entries.foldl (fun q e => (addCommentRoute q e.1 e.2.1 e.2.2).1) p).comments)
        = .arr (entries.foldl (fun acc e => acc.push (commentObj e.1 e.2.1 e.2.2)) A) := by
  induction entries with
  | nil =>
    intro p A _ hA
    simpa using hA
  | cons e t ih =>
    intro p A hval hA
    rw [List.foldl_cons, List.foldl_cons]
    have hv : commentFormOk e.2.1 = true := hval e (List.mem_cons_self _ _)
    rw [addCommentRoute_valid p e.1 e.2.1 e.2.2 A hA hv]
    exact ih _ _ (fun x hx => hval x (List.mem_cons_of_mem _ hx))
      (get_comments_list_dumps_arr _)

theorem dumpsArrTail_push : ∀ (t : JArr) (x : Json),
    dumpsArrTail (t.push x) = dumpsArrTail t ++ (',' :: ' ' :: dumpsJson x)
  | .nil, x => by
    rw [show JArr.push .nil x = .cons x .nil from rfl, dumpsArrTail_cons, dumpsArrTail_nil]
    simp
  | .cons j tl, x => by
    rw [show (JArr.cons j tl).push x = .cons j (tl.push x) from rfl, dumpsArrTail_cons,
      dumpsArrTail_push tl x, dumpsArrTail_cons]
    simp

/-! ### Claim C8 -/

/-- Claim C8: reading a comment blob that does not parse returns the empty
sequence rather than propagating an error, and the empty (or missing) blob
also reads as the empty sequence. -/
theorem c8_corrupt_comments (blob : String) :
    (parseJson blob = none → get_comments_list blob = .arr .nil) ∧
      get_comments_list "" = .arr .nil := by
  refine ⟨?_, rfl⟩
  intro h
  rw [get_comments_list]
  split_ifs with hb
  · rfl
  · rw [h]

theorem c8_corrupt_comments_witness :
    get_comments_list "corrupt[[" = .arr .nil :=
  (c8_corrupt_comments "corrupt[[").1 rfl

/-! ### Claim C10 -/

/-- Claim C10: when the stored blob parses to a list, `add_comment` followed
by `get_comments_list` returns exactly the original list with one new entry
appended at the end, carrying the given username and comment text — the
`json.dumps`/`json.loads` round-trip restores the list. -/
theorem c10_comment_roundtrip (p : Project) (l : JArr)
    (h : parseJson p.comments = some (.arr l)) (u t ts : String) :
    ∃ p2 : Project, p.add_comment u t ts = some p2 ∧
      p2.funding_goal = p.funding_goal ∧ p2.contributions = p.contributions ∧
      get_comments_list p2.comments = .arr (l.push (commentObj u t ts)) := by
  have hne : ¬(p.comments = "") := by
    intro hb
    rw [hb, show parseJson "" = none from rfl] at h
    cases h
  have hg : get_comments_list p.comments = .arr l := by
    rw [get_comments_list, if_neg hne, h]
  refine ⟨{ p with comments := dumpsStr (.arr (l.push (commentObj u t ts))) }, ?_, rfl, rfl, ?_⟩
  · rw [Project.add_comment, addCommentBlob, hg]
  · exact get_comments_list_dumps_arr _

theorem c10_comment_roundtrip_witness :
    ∃ p2 : Project, (Project.mk 100 "[]" []).add_comment "alice" "hello" "ts0" = some p2 ∧
      p2.funding_goal = (Project.mk 100 "[]" []).funding_goal ∧
      p2.contributions = (Project.mk 100 "[]" []).contributions ∧
      get_comments_list p2.comments
        = .arr (JArr.push .nil (commentObj "alice" "hello" "ts0")) :=
  c10_comment_roundtrip (Project.mk 100 "[]" []) .nil rfl "alice" "hello" "ts0"

/-! ### Claim C6 -/

/-- Claim C6: starting from a fresh project (empty comment blob), `K`
successful appends leave a log that reads back with exactly `K` entries in
append order; a failed append (validation failure) leaves the project
unchanged; and each append extends the stored blob by one serialized entry
before the closing bracket while keeping every previously stored byte as a
literal prefix (`dropLast` of the old blob). -/
theorem c6_append_only_log (goal : ℚ) (contribs : List Contribution)
    (entries : List (String × String × String))
    (hval : ∀ e ∈ entries, commentFormOk e.2.1 = true) :
    (get_comments_list
        ((entries.foldl (fun q e => (addCommentRoute q e.1 e.2.1 e.2.2).1)
          (Project.mk goal "" contribs)).comments)
      = .arr (JArr.ofList (entries.map (fun e => commentObj e.1 e.2.1 e.2.2))) ∧
      (JArr.ofList (entries.map (fun e => commentObj e.1 e.2.1 e.2.2))).length
        = entries.length) ∧
      (∀ (p : Project) (u t ts : String), commentFormOk t = false →
        addCommentRoute p u t ts = (p, false)) ∧
      ∀ (a : JArr) (x : Json),
        dumpsJson (.arr (a.push x))
          = (dumpsJson (.arr a)).dropLast
              ++ ((if a.length = 0 then [] else [',', ' ']) ++ (dumpsJson x ++ [']'])) := by
  refine ⟨⟨?_, ?_⟩, ?_, ?_⟩
  · have h := comment_fold entries (Project.mk goal "" contribs) .nil hval rfl
    rw [h]
    have h2 : entries.foldl (fun acc e => acc.push (commentObj e.1 e.2.1 e.2.2)) JArr.nil
        = (entries.map (fun e => commentObj e.1 e.2.1 e.2.2)).foldl
            (fun acc j => acc.push j) JArr.nil := by
      rw [List.foldl_map]
    rw [h2, foldl_push_ofList]
    rw [show JArr.append .nil (JArr.ofList (entries.map (fun e => commentObj e.1 e.2.1 e.2.2)))
        = JArr.ofList (entries.map (fun e => commentObj e.1 e.2.1 e.2.2)) from rfl]
  · rw [JArr_length_ofList, List.length_map]
  · intro p u t ts h
    rw [addCommentRoute, if_neg (by rw [h]; exact Bool.false_ne_true)]
  · intro a x
    cases a with
    | nil =>
      rw [show JArr.push .nil x = .cons x .nil from rfl, dumpsJson_arr, dumpsJson_arr,
        dumpsArr_cons, dumpsArrTail_nil, dumpsArr_nil]
      simp [JArr.length]
    | cons j tl =>
      rw [show (JArr.cons j tl).push x = .cons j (tl.push x) from rfl,
        dumpsJson_arr, dumpsJson_arr, dumpsArr_cons, dumpsArr_cons, dumpsArrTail_push]
      rw [show (JArr.cons j tl).length = tl.length + 1 from rfl]
      rw [if_neg (by omega)]
      have hdrop : ('[' :: ((dumpsJson j ++ dumpsArrTail tl) ++ [']'])).dropLast
          = '[' :: (dumpsJson j ++ dumpsArrTail tl) := by
        rw [show '[' :: ((dumpsJson j ++ dumpsArrTail tl) ++ [']'])
            = ('[' :: (dumpsJson j ++ dumpsArrTail tl)) ++ [']'] from rfl,
          List.dropLast_concat]
      rw [hdrop]
      simp

theorem c6_append_only_log_witness :
    (∀ e ∈ ([("alice", "hello!", "t1"), ("bob", "worldz", "t2")] : List (String × String × String)), commentFormOk e.2.1 = true) ∧
      ((get_comments_list
          ((([("alice", "hello!", "t1"), ("bob", "worldz", "t2")] : List (String × String × String)).foldl (fun q e => (addCommentRoute q e.1 e.2.1 e.2.2).1)
            (Project.mk 100 "" [])).comments)
        = .arr (JArr.ofList (([("alice", "hello!", "t1"), ("bob", "worldz", "t2")] : List (String × String × String)).map (fun e => commentObj e.1 e.2.1 e.2.2))) ∧
        (JArr.ofList (([("alice", "hello!", "t1"), ("bob", "worldz", "t2")] : List (String × String × String)).map (fun e => commentObj e.1 e.2.1 e.2.2))).length
          = ([("alice", "hello!", "t1"), ("bob", "worldz", "t2")] : List (String × String × String)).length) ∧
      (∀ (p : Project) (u t ts : String), commentFormOk t = false →
        addCommentRoute p u t ts = (p, false)) ∧
      ∀ (a : JArr) (x : Json),
        dumpsJson (.arr (a.push x))
          = (dumpsJson (.arr a)).dropLast
              ++ ((if a.length = 0 then [] else [',', ' ']) ++ (dumpsJson x ++ [']']))) :=
  ⟨by decide, c6_append_only_log 100 [] _ (by decide)⟩

/-! ### Claim C7 -/

/-- Claim C7 as stated is false on the code: the `CommentForm` also carries
`DataRequired()`, which rejects whitespace-only text, so the five-space
comment — whose length 5 is inside the 5-500 bounds — is rejected. -/
theorem c7_counterexample :
    commentFormOk "     " = false ∧ ("     " : String).length = 5 := ⟨rfl, rfl⟩

/-- Claim C7, amended: the comment form accepts exactly the texts whose
length is within the 5-500 bounds and that are not whitespace-only (the
`DataRequired` validator); a 4-character text is rejected and a 5-character
text is accepted; a valid submission against an existing project appends the
comment, and an invalid one leaves the project unchanged. -/
theorem c7_comment_validation (t : String) :
    (commentFormOk t = true ↔ (5 ≤ t.length ∧ t.length ≤ 500 ∧ pyStripEmpty t = false)) ∧
      (commentFormOk "hiya" = false ∧ commentFormOk "hello" = true) ∧
      (∀ (p : Project) (u ts : String) (A : JArr),
        get_comments_list p.comments = .arr A → commentFormOk t = true →
        (addCommentRoute p u t ts).2 = true ∧
          get_comments_list (addCommentRoute p u t ts).1.comments
            = .arr (A.push (commentObj u t ts))) ∧
      (commentFormOk t = false → ∀ (p : Project) (u ts : String),
        addCommentRoute p u t ts = (p, false)) := by
  refine ⟨?_, ⟨rfl, rfl⟩, ?_, ?_⟩
  · rw [commentFormOk]
    simp only [Bool.and_eq_true, Bool.not_eq_true', decide_eq_true_eq]
    constructor
    · rintro ⟨⟨hws, h1⟩, h2⟩
      exact ⟨h1, h2, hws⟩
    · rintro ⟨h1, h2, hws⟩
      exact ⟨⟨hws, h1⟩, h2⟩
  · intro p u ts A hA hv
    rw [addCommentRoute_valid p u t ts A hA hv]
    exact ⟨rfl, get_comments_list_dumps_arr _⟩
  · intro h p u ts
    rw [addCommentRoute, if_neg (by rw [h]; exact Bool.false_ne_true)]

theorem c7_comment_validation_witness :
    (commentFormOk "hello" = true ↔
        (5 ≤ ("hello" : String).length ∧ ("hello" : String).length ≤ 500 ∧
          pyStripEmpty "hello" = false)) ∧
      (commentFormOk "hiya" = false ∧ commentFormOk "hello" = true) ∧
      (∀ (p : Project) (u ts : String) (A : JArr),
        get_comments_list p.comments = .arr A → commentFormOk "hello" = true →
        (addCommentRoute p u "hello" ts).2 = true ∧
          get_comments_list (addCommentRoute p u "hello" ts).1.comments
            = .arr (A.push (commentObj u "hello" ts))) ∧
      (commentFormOk "hello" = false → ∀ (p : Project) (u ts : String),
        addCommentRoute p u "hello" ts = (p, false)) :=
  c7_comment_validation "hello"

end Crowdfund
